import Mathlib

/-!
# Verification of the file-based test management service

Shallow embedding of the JavaScript sources of the repository
(manifest service, file-system helpers, error handlers, manifest data
helpers, YAML support, and the TestReport / TestSession models), with
theorems settling the specification claims about them.

JavaScript numbers are modelled as exact rationals (with an explicit
NaN constructor where NaN is reachable); machine-level floating point
rounding is outside the scope of the claims checked here.
-/

namespace FBTM

/-! ## JS string and path helpers -/

/-- Substring test on character lists: does `needle` occur contiguously
inside `hay`?  This models the JS `String.prototype.includes`. -/
def substrAux : List Char → List Char → Bool
  | _, [] => false
  | needle, c :: rest =>
    (needle.isPrefixOf (c :: rest)) || substrAux needle rest

/-- JS `hay.includes(needle)`. -/
def jsIncludes (hay needle : String) : Bool :=
  needle.toList.isPrefixOf hay.toList || substrAux needle.toList hay.toList

/-- Split a character list at every occurrence of the separator, as in
the JS `String.prototype.split` with a one-character separator
(structural, so that it reduces in the kernel). -/
def splitOnCharAux (c : Char) : List Char → List Char → List (List Char)
  | acc, [] => [acc.reverse]
  | acc, d :: rest =>
    if d = c then acc.reverse :: splitOnCharAux c [] rest
    else splitOnCharAux c (d :: acc) rest

/-- JS `s.split(c)` for a single-character separator. -/
def splitOnChar (c : Char) (cs : List Char) : List (List Char) :=
  splitOnCharAux c [] cs

/-- The last `/`-separated component of a path, as in Node `path.basename(p)`. -/
def pathBasenameRaw (p : String) : String :=
  match (splitOnChar '/' p.toList).reverse with
  | [] => p
  | last :: _ => String.mk last

/-- Index (from the start) of the last occurrence of `c`, if any. -/
def lastIndexOf (cs : List Char) (c : Char) : Option Nat :=
  match cs.reverse.findIdx? (fun d => d = c) with
  | none => none
  | some j => some (cs.length - 1 - j)

/-- Node `path.extname`: the suffix of the basename starting at its last
dot, or the empty string when there is no dot or the only dot is the
leading character. -/
def pathExtname (p : String) : String :=
  let b := (pathBasenameRaw p).toList
  match lastIndexOf b '.' with
  | none => ""
  | some 0 => ""
  | some i => String.mk (b.drop i)

/-- Node `path.basename(p, ext)`: the last path component, with the
suffix `ext` removed when the component ends with it and is not equal
to it. -/
def pathBasenameExt (p ext : String) : String :=
  let b := pathBasenameRaw p
  if b ≠ ext ∧ ext.toList.reverse.isPrefixOf b.toList.reverse then
    String.mk (b.toList.take (b.toList.length - ext.toList.length))
  else b

/-- ASCII lower-casing of a string, modelling `toLowerCase` on the
ASCII file-name material the service handles. -/
def asciiLower (s : String) : String :=
  String.mk (s.toList.map fun c =>
    if 'A' ≤ c ∧ c ≤ 'Z' then Char.ofNat (c.toNat + 32) else c)

/-! ## JS values

Manifest data (parsed JSON/YAML payloads) is modelled by `JsValue`.
Objects are association lists in insertion order, which is the
enumeration order of `Object.entries` for string keys in JS. -/

inductive JsValue where
  | null : JsValue
  | bool : Bool → JsValue
  | num : Rat → JsValue
  | str : String → JsValue
  | arr : List JsValue → JsValue
  | obj : List (String × JsValue) → JsValue

mutual

/-- Decidable equality on `JsValue` (the nested lists prevent
auto-derivation). -/
def decEqJsValue : (a b : JsValue) → Decidable (a = b)
  | .null, .null => isTrue rfl
  | .bool a, .bool b =>
    match decEq a b with
    | isTrue h => isTrue (h ▸ rfl)
    | isFalse h => isFalse (fun he => h (by injection he))
  | .num a, .num b =>
    match decEq a b with
    | isTrue h => isTrue (h ▸ rfl)
    | isFalse h => isFalse (fun he => h (by injection he))
  | .str a, .str b =>
    match decEq a b with
    | isTrue h => isTrue (h ▸ rfl)
    | isFalse h => isFalse (fun he => h (by injection he))
  | .arr a, .arr b =>
    match decEqJsList a b with
    | isTrue h => isTrue (h ▸ rfl)
    | isFalse h => isFalse (fun he => h (by injection he))
  | .obj a, .obj b =>
    match decEqJsObj a b with
    | isTrue h => isTrue (h ▸ rfl)
    | isFalse h => isFalse (fun he => h (by injection he))
  | .null, .bool _ | .null, .num _ | .null, .str _ | .null, .arr _ | .null, .obj _ =>
    isFalse (by intro h; exact absurd h (by simp))
  | .bool _, .null | .bool _, .num _ | .bool _, .str _ | .bool _, .arr _ | .bool _, .obj _ =>
    isFalse (by intro h; exact absurd h (by simp))
  | .num _, .null | .num _, .bool _ | .num _, .str _ | .num _, .arr _ | .num _, .obj _ =>
    isFalse (by intro h; exact absurd h (by simp))
  | .str _, .null | .str _, .bool _ | .str _, .num _ | .str _, .arr _ | .str _, .obj _ =>
    isFalse (by intro h; exact absurd h (by simp))
  | .arr _, .null | .arr _, .bool _ | .arr _, .num _ | .arr _, .str _ | .arr _, .obj _ =>
    isFalse (by intro h; exact absurd h (by simp))
  | .obj _, .null | .obj _, .bool _ | .obj _, .num _ | .obj _, .str _ | .obj _, .arr _ =>
    isFalse (by intro h; exact absurd h (by simp))

/-- Decidable equality on lists of `JsValue`. -/
def decEqJsList : (a b : List JsValue) → Decidable (a = b)
  | [], [] => isTrue rfl
  | [], _ :: _ => isFalse (by simp)
  | _ :: _, [] => isFalse (by simp)
  | x :: xs, y :: ys =>
    match decEqJsValue x y with
    | isFalse h => isFalse (fun he => h (by injection he))
    | isTrue h1 =>
      match decEqJsList xs ys with
      | isTrue h2 => isTrue (by rw [h1, h2])
      | isFalse h => isFalse (fun he => h (by injection he))

/-- Decidable equality on `JsValue` association lists. -/
def decEqJsObj : (a b : List (String × JsValue)) → Decidable (a = b)
  | [], [] => isTrue rfl
  | [], _ :: _ => isFalse (by simp)
  | _ :: _, [] => isFalse (by simp)
  | (k, x) :: xs, (l, y) :: ys =>
    match decEq k l with
    | isFalse h => isFalse (fun he => by injection he with h1 h2; exact h (by injection h1))
    | isTrue h0 =>
      match decEqJsValue x y with
      | isFalse h => isFalse (fun he => by injection he with h1 h2; exact h (by injection h1))
      | isTrue h1 =>
        match decEqJsObj xs ys with
        | isTrue h2 => isTrue (by rw [h0, h1, h2])
        | isFalse h => isFalse (fun he => h (by injection he))

end

instance : DecidableEq JsValue := decEqJsValue

namespace ManifestService

/-! ## Manifest Service (`ManifestService` class)

The service is parametric in the pieces it delegates to the outside
world: the file system (a partial map from paths to file contents),
the JSON and YAML text parsers, and the ajv validator.  Everything the
claims are about — control flow, error envelopes, schema-type
inference — is embedded from the source. -/

/-- File system: path to file content, `none` meaning the file does not
exist (read raises `ENOENT`). -/
def FileSys : Type := String → Option String

/-- The parameters a `ManifestService` instance closes over: the set of
schema names loaded into the registry, text parsers for the two
formats, and the compiled-schema validator (returning ajv's error
message list, empty exactly when the data is valid). -/
structure Service where
  schemas : List String
  parseJson : String → Except String JsValue
  parseYaml : String → Except String JsValue
  validatorErrors : String → JsValue → List String

/-- `getFileExtension`: lower-cased `path.extname`. -/
def getFileExtension (filePath : String) : String :=
  asciiLower (pathExtname filePath)

/-- `isSupportedFormat`. -/
def isSupportedFormat (extension : String) : Bool :=
  extension = ".json" || extension = ".yaml" || extension = ".yml"

/-- `readManifestFile`: reject unsupported extensions, read the file
(`ENOENT` becomes a "File not found" message), and parse by format.
`Except.error` models a thrown error carrying the message. -/
def readManifestFile (svc : Service) (fsys : FileSys) (filePath : String) :
    Except String JsValue :=
  let extension := getFileExtension filePath
  if ¬ isSupportedFormat extension then
    Except.error ("Unsupported file format: " ++ extension)
  else
    match fsys filePath with
    | none => Except.error ("File not found: " ++ filePath)
    | some content =>
      if extension = ".json" then svc.parseJson content
      else svc.parseYaml content

/-- The result envelope of `validateManifest`. -/
structure Envelope where
  isValid : Bool
  data : Option JsValue
  errors : List String
  filePath : String
  deriving DecidableEq

/-- `validateManifest`: every failure of the read/parse/lookup pipeline
is caught and returned as an invalid envelope carrying the message and
the file path; nothing escapes as an exception (the function is total
into `Envelope`). -/
def validateManifest (svc : Service) (fsys : FileSys) (filePath schemaType : String) :
    Envelope :=
  match readManifestFile svc fsys filePath with
  | Except.error msg =>
    { isValid := false, data := none, errors := [msg], filePath := filePath }
  | Except.ok data =>
    if ¬ svc.schemas.contains schemaType then
      { isValid := false, data := none,
        errors := ["Unknown schema type: " ++ schemaType], filePath := filePath }
    else
      let errs := svc.validatorErrors schemaType data
      if errs.isEmpty then
        { isValid := true, data := some data, errors := [], filePath := filePath }
      else
        { isValid := false, data := none, errors := errs, filePath := filePath }

/-- The schema-type inference inlined in `processManifestFiles`: default
`project`, then first-match substring tests on the extension-stripped
basename in the source's order. -/
def inferSchemaType (filename : String) : String :=
  if jsIncludes filename "strategy" then "test-strategy"
  else if jsIncludes filename "plan" then "test-plan"
  else if jsIncludes filename "charter" then "test-charter"
  else if jsIncludes filename "session" then "test-session"
  else if jsIncludes filename "report" then "test-report"
  else if jsIncludes filename "suite" then "test-suite"
  else if jsIncludes filename "case" then "test-case"
  else if jsIncludes filename "status" then "test-status-report"
  else "project"

/-- `processManifestFiles`: for each path, infer the schema type from
the extension-stripped basename and validate.  The per-file try/catch
is vacuous in the embedding because `validateManifest` is total. -/
def processManifestFiles (svc : Service) (fsys : FileSys) (filePaths : List String) :
    List Envelope :=
  filePaths.map (fun filePath =>
    let extension := getFileExtension filePath
    let filename := pathBasenameExt filePath extension
    validateManifest svc fsys filePath (inferSchemaType filename))

/-- The filename patterns and their schema types, in the priority order
the specification states: strategy, plan, charter, session, report,
suite, case, status. -/
def priorityTable : List (String × String) :=
  [("strategy", "test-strategy"), ("plan", "test-plan"),
   ("charter", "test-charter"), ("session", "test-session"),
   ("report", "test-report"), ("suite", "test-suite"),
   ("case", "test-case"), ("status", "test-status-report")]

/-- First-match substring search over `priorityTable`, defaulting to
`project` — the specification's description of the inference. -/
def inferSchemaTypeSpec (filename : String) : String :=
  match priorityTable.find? (fun kv => jsIncludes filename kv.1) with
  | some kv => kv.2
  | none => "project"

end ManifestService

namespace Models

/-! ## Model classes (`src/models/TestReport.js`, `src/models/TestSession.js`)

JS numbers reachable in the metric getters are modelled as `JsNum`:
either NaN or an exact rational.  A property read can further yield
`null` or `undefined`, modelled by `JsField`. -/

inductive JsNum where
  | nan : JsNum
  | val : Rat → JsNum
  deriving DecidableEq

/-- JS `Math.round` on a finite value: round half toward positive
infinity. -/
def jsMathRound (q : Rat) : Int :=
  Int.floor (q + 1 / 2)

/-- Subtraction; NaN propagates. -/
def jsSub : JsNum → JsNum → JsNum
  | .val a, .val b => .val (a - b)
  | _, _ => .nan

/-- Division; NaN propagates.  Division by zero would give an infinity
in JS; it is modelled as NaN here and is unreachable in the embedded
getters, which guard `executed === 0` before dividing. -/
def jsDiv : JsNum → JsNum → JsNum
  | .val a, .val b => if b = 0 then .nan else .val (a / b)
  | _, _ => .nan

/-- Multiplication; NaN propagates. -/
def jsMul : JsNum → JsNum → JsNum
  | .val a, .val b => .val (a * b)
  | _, _ => .nan

/-- Rounding on `JsNum`: `Math.round(NaN)` is NaN. -/
def jsNumRound : JsNum → JsNum
  | .nan => .nan
  | .val q => .val (jsMathRound q)

/-- The result of reading an object property: the property may be
absent (`undefined`), explicitly `null`, or a number. -/
inductive JsField where
  | undef : JsField
  | jsNull : JsField
  | num : JsNum → JsField
  deriving DecidableEq

/-- Numeric coercion as used by JS arithmetic: `undefined` becomes NaN
and `null` becomes 0. -/
def toNumber : JsField → JsNum
  | .undef => .nan
  | .jsNull => .val 0
  | .num n => n

/-- The JS idiom `x || 0` applied to a property read: `undefined`,
`null`, `0` and `NaN` are all falsy and give 0. -/
def orZero : JsField → JsNum
  | .num (.val q) => .val q
  | _ => .val 0

/-- The `metrics` sub-object of a report, with each counter property
possibly absent, null, or a number. -/
structure Metrics where
  testCasesExecuted : JsField
  defectsFound : JsField
  deriving DecidableEq

/-- A `TestReport` as far as the metric getters read it: the `metrics`
property, `none` meaning absent (so `getMetrics()` is falsy). -/
structure TestReport where
  metrics : Option Metrics
  deriving DecidableEq

/-- `getTestCasesExecuted`: `metrics ? metrics.testCasesExecuted : null`. -/
def getTestCasesExecuted (r : TestReport) : JsField :=
  match r.metrics with
  | none => .jsNull
  | some m => m.testCasesExecuted

/-- `getDefectsFound`: `metrics ? metrics.defectsFound : null`. -/
def getDefectsFound (r : TestReport) : JsField :=
  match r.metrics with
  | none => .jsNull
  | some m => m.defectsFound

/-- `getPassRate`: null when executed is `null` or `0`, otherwise
`Math.round((passed / executed) * 100)` with
`passed = executed - (defects || 0)`.  `none` models the JS `null`
return. -/
def getPassRate (r : TestReport) : Option JsNum :=
  let executed := getTestCasesExecuted r
  if executed = .jsNull ∨ executed = .num (.val 0) then none
  else
    let e := toNumber executed
    let passed := jsSub e (orZero (getDefectsFound r))
    some (jsNumRound (jsMul (jsDiv passed e) (.val 100)))

/-- `getDefectDensity`: null when executed is `null` or `0`, otherwise
`(defects || 0) / executed`. -/
def getDefectDensity (r : TestReport) : Option JsNum :=
  let executed := getTestCasesExecuted r
  if executed = .jsNull ∨ executed = .num (.val 0) then none
  else some (jsDiv (orZero (getDefectsFound r)) (toNumber executed))

/-- The rational value of `defectsFound || 0` for a report: the stored
finite number if there is one, otherwise 0. -/
def defectsOrZero (r : TestReport) : Rat :=
  match getDefectsFound r with
  | .num (.val q) => q
  | _ => 0

/-! ### TestSession duration -/

/-- JS `parseInt(s, 10)`: skip leading whitespace, read an optional
sign and then leading decimal digits; NaN (here `none`) when no digit
follows. -/
def jsParseInt (s : String) : Option Int :=
  let cs := s.toList.dropWhile (fun c => c.isWhitespace)
  let signed : Bool × List Char :=
    match cs with
    | '-' :: rest => (true, rest)
    | '+' :: rest => (false, rest)
    | rest => (false, rest)
  let digits := signed.2.takeWhile (fun c => c.isDigit)
  if digits.isEmpty then none
  else
    let v : Int := digits.foldl (fun a d => a * 10 + (d.toNat - 48)) 0
    some (if signed.1 then -v else v)

/-- `_parseTime`: `null` unless the string splits on `:` into exactly
three parts that all `parseInt` to numbers; otherwise the offset in
milliseconds that `date.setHours(h, m, s, 0)` places the time at
relative to the current date's midnight.  The current-date base is the
same for both ends of a duration and cancels in the difference. -/
def parseTimeMs (timeStr : String) : Option Int :=
  if timeStr = "" then none
  else
    match (splitOnChar ':' timeStr.toList).map String.mk with
    | [hs, ms, ss] =>
      match jsParseInt hs, jsParseInt ms, jsParseInt ss with
      | some h, some m, some s => some (((h * 60 + m) * 60 + s) * 1000)
      | _, _, _ => none
    | _ => none

/-- A `TestSession` as far as duration calculation reads it: the
`startTime` and `endTime` properties, `none` meaning absent. -/
structure TestSession where
  startTime : Option String
  endTime : Option String
  deriving DecidableEq

/-- Truthiness of a read string property: absent and empty are falsy. -/
def presentString : Option String → Option String
  | none => none
  | some s => if s = "" then none else some s

/-- `calculateDurationFromTimes`: null when either time is missing or
fails to parse; otherwise the end-minus-start difference in
milliseconds, divided by 60000 and rounded with `Math.round`. -/
def calculateDurationFromTimes (sess : TestSession) : Option Int :=
  match presentString sess.startTime, presentString sess.endTime with
  | some st, some et =>
    match parseTimeMs st, parseTimeMs et with
    | some a, some b => some (jsMathRound (((b - a : Int) : Rat) / 60000))
    | _, _ => none
  | _, _ => none

end Models

namespace ManifestHelpers

/-! ## Manifest data helpers (`mergeManifestData`)

The merge walks `Object.entries(additionalData)` over a working copy
`{...baseData}`.  The JS peculiarities that matter are embedded
exactly: spreading an array yields an object with stringified index
keys; `typeof null === 'object'` but `null` is falsy; the
`Array.isArray` test in the merge guard is applied only to the extra
value, never to the base value.  A `none` result models the TypeError
thrown by `Object.entries(null)`.  Spreading or enumerating a string
would yield indexed one-character entries in JS; that corner is
unreachable for record inputs and is modelled as having no entries. -/

mutual

/-- Structural size of a value, used as the termination measure of the
merge. -/
def jsSize : JsValue → Nat
  | .arr vs => 1 + vsSize vs
  | .obj es => 1 + entsSize es
  | _ => 1

/-- Size of an array's element list. -/
def vsSize : List JsValue → Nat
  | [] => 0
  | v :: rest => 1 + jsSize v + vsSize rest

/-- Size of an object's entry list. -/
def entsSize : List (String × JsValue) → Nat
  | [] => 0
  | kv :: rest => 1 + jsSize kv.2 + entsSize rest

end

/-- Property read `result[key]` on the working object. -/
def getKey (es : List (String × JsValue)) (k : String) : Option JsValue :=
  match es.find? (fun kv => kv.1 = k) with
  | none => none
  | some kv => some kv.2

/-- Property write `result[key] = v`: overwrite in place, or append a
new key at the end, matching JS property insertion order. -/
def setKey : List (String × JsValue) → String → JsValue → List (String × JsValue)
  | [], k, v => [(k, v)]
  | (k', v') :: rest, k, v =>
    if k' = k then (k', v) :: rest else (k', v') :: setKey rest k v

/-- Entries `(toString i, v)` for an array's elements, starting at
index `i` — the object spreading / enumeration of a JS array. -/
def indexedFrom (i : Nat) : List JsValue → List (String × JsValue)
  | [] => []
  | v :: rest => (toString i, v) :: indexedFrom (i + 1) rest

/-- Object spread `{...v}`: an object's own entries, an array's indexed
entries, nothing for primitives. -/
def spreadObj : JsValue → List (String × JsValue)
  | .obj es => es
  | .arr vs => indexedFrom 0 vs
  | _ => []

/-- The merge guard on the base side:
`result[key] && typeof result[key] === 'object'`.  Arrays pass —
`Array.isArray` is never tested on the base value — and `null` fails
only because it is falsy. -/
def isObjTruthy : Option JsValue → Bool
  | some (.arr _) => true
  | some (.obj _) => true
  | _ => false

/-- The merge guard on the extra side:
`typeof value === 'object' && !Array.isArray(value)`.  `null` passes
because `typeof null === 'object'`. -/
def isPlainObjTyped : JsValue → Bool
  | .obj _ => true
  | .null => true
  | _ => false

theorem entsSize_indexedFrom (i : Nat) (vs : List JsValue) :
    entsSize (indexedFrom i vs) = vsSize vs := by
  induction vs generalizing i with
  | nil => rfl
  | cons v rest ih => simp [indexedFrom, entsSize, vsSize, ih]

mutual

/-- `mergeManifestData(baseData, additionalData)`: JS always returns a
plain object here (the working copy), so the result is an entry list;
`none` models the TypeError thrown by `Object.entries(null)` when a
null extra value meets an object-typed truthy base value. -/
def mergeManifestData (baseData additionalData : JsValue) :
    Option (List (String × JsValue)) :=
  match additionalData with
  | .null => none
  | .obj es => mergeEntries (spreadObj baseData) es
  | .arr vs => mergeEntries (spreadObj baseData) (indexedFrom 0 vs)
  | .bool _ => some (spreadObj baseData)
  | .num _ => some (spreadObj baseData)
  | .str _ => some (spreadObj baseData)
termination_by jsSize additionalData
decreasing_by
  all_goals simp [jsSize, entsSize_indexedFrom]

/-- The `for (const [key, value] of Object.entries(additionalData))`
loop over the working object. -/
def mergeEntries (result : List (String × JsValue)) (entries : List (String × JsValue)) :
    Option (List (String × JsValue)) :=
  match entries with
  | [] => some result
  | (k, v) :: rest =>
    if isObjTruthy (getKey result k) ∧ isPlainObjTyped v then
      match mergeManifestData ((getKey result k).getD .null) v with
      | none => none
      | some merged => mergeEntries (setKey result k (.obj merged)) rest
    else mergeEntries (setKey result k v) rest
termination_by entsSize entries
decreasing_by
  all_goals simp [entsSize]
  all_goals omega

end

end ManifestHelpers

namespace ErrorHandlers

/-! ## Error handlers (`retryOperation`)

The operation is modelled as a function from the (1-based) attempt
number to a result, so that an always-throwing operation and a
first-success-at-attempt-k operation are both expressible.  The trace
records, besides the returned object, how many times the operation was
invoked and the sequence of backoff delays slept. -/

/-- The object `retryOperation` resolves with. -/
structure RetryResult where
  success : Bool
  result : Option JsValue
  errorType : Option String
  error : Option String
  attempts : Nat
  deriving DecidableEq

/-- A run of the retry loop: the returned object, the number of times
the operation was invoked, and the delays slept between attempts in
order. -/
structure RetryTrace where
  outcome : RetryResult
  invocations : Nat
  delays : List Nat
  deriving DecidableEq

/-- Default `maxRetries`. -/
def defaultMaxRetries : Nat := 3

/-- Default `baseDelay` in milliseconds. -/
def defaultBaseDelay : Nat := 1000

/-- The `for (let attempt = 1; attempt <= maxRetries; attempt++)` loop
from a given attempt on.  Entered only with `attempt ≤ maxRetries`
(the entry point guarantees it); on failure at `attempt = maxRetries`
the loop breaks and the exhaustion object is returned, otherwise the
loop sleeps `baseDelay * 2 ^ (attempt - 1)` and retries. -/
def retryAux (op : Nat → Except String JsValue) (baseDelay maxRetries attempt : Nat) :
    RetryTrace :=
  match op attempt with
  | .ok v => ⟨⟨true, some v, none, none, attempt⟩, 1, []⟩
  | .error e =>
    if maxRetries ≤ attempt then
      ⟨⟨false, none, some "max_retries_exceeded", some e, maxRetries⟩, 1, []⟩
    else
      let t := retryAux op baseDelay maxRetries (attempt + 1)
      ⟨t.outcome, t.invocations + 1, baseDelay * 2 ^ (attempt - 1) :: t.delays⟩
termination_by maxRetries - attempt
decreasing_by omega

/-- `retryOperation`: run the loop from attempt 1.  With
`maxRetries = 0` the loop body never runs and the code then reads
`lastError.message` with `lastError` still `undefined` — a thrown
TypeError, modelled as `none`. -/
def retryOperation (op : Nat → Except String JsValue) (maxRetries baseDelay : Nat) :
    Option RetryTrace :=
  if maxRetries = 0 then none
  else some (retryAux op baseDelay maxRetries 1)

end ErrorHandlers

namespace FileHelpers

/-! ## File System Service (`scanDirectory`, `discoverManifestFiles`, caching)

The directory structure is a function from a path to its entries, so
unboundedly deep (even infinitely deep) trees are expressible; the
depth bound of `scanDirectory` is what makes the scan total.  File
metadata (sizes, mtimes) and I/O errors are outside the claims checked
here: reads always succeed, so the `success` flag of a result is
always true, and the directory / file records keep only their paths.
`optimizeDirectoryScanning`'s `scanTime` field reports wall-clock
elapsed time and is not modelled. -/

/-- One entry of a directory listing. -/
structure FSEntry where
  name : String
  isDir : Bool
  deriving DecidableEq

/-- A directory tree: the entries listed under each path.  Paths are
strings, joined with `/` as `path.join` does for these inputs. -/
def DirTree : Type := String → List FSEntry

/-- Node `path.join(dir, name)` for simple names. -/
def pJoin (dir name : String) : String :=
  dir ++ "/" ++ name

/-- `MANIFEST_EXTENSIONS`. -/
def MANIFEST_EXTENSIONS : List String :=
  [".json", ".yaml", ".yml"]

/-- The result record of `scanDirectory` (an inductive type because
nested scans appear under `subdirectories`). -/
inductive ScanResult where
  | mk (path : String) (files directories : List String)
      (subdirectories : List ScanResult) (totalFiles : Nat)
      (maxDepthReached : Bool) (succeeded : Bool)

/-- The `path` field of a scan result. -/
def ScanResult.path : ScanResult → String
  | .mk p _ _ _ _ _ _ => p

/-- The `files` field (paths of matching files directly in the
directory). -/
def ScanResult.files : ScanResult → List String
  | .mk _ f _ _ _ _ _ => f

/-- The `directories` field (paths of immediate subdirectories). -/
def ScanResult.directories : ScanResult → List String
  | .mk _ _ d _ _ _ _ => d

/-- The `subdirectories` field (recursive scan results). -/
def ScanResult.subdirectories : ScanResult → List ScanResult
  | .mk _ _ _ s _ _ _ => s

/-- The `totalFiles` field. -/
def ScanResult.totalFiles : ScanResult → Nat
  | .mk _ _ _ _ t _ _ => t

/-- The `maxDepthReached` flag. -/
def ScanResult.maxDepthReached : ScanResult → Bool
  | .mk _ _ _ _ _ m _ => m

/-- The `success` field. -/
def ScanResult.succeeded : ScanResult → Bool
  | .mk _ _ _ _ _ _ s => s

/-- Accumulator of the entry loop inside `scanDirectory`. -/
structure ScanAcc where
  files : List String
  dirs : List String
  subs : List ScanResult
  total : Nat
  flag : Bool

mutual

/-- `scanDirectory`: at or beyond the depth ceiling, return a
successful empty result flagged `maxDepthReached`; otherwise process
the directory's entries.  Totality over arbitrary (unboundedly deep)
trees is exactly the termination argument: each recursive call
increments `currentDepth`, and recursion only proceeds while
`currentDepth < maxDepth`. -/
def scanDirectory (fsys : DirTree) (recursive : Bool) (extensions : List String)
    (maxDepth : Nat) (directoryPath : String) (currentDepth : Nat) : ScanResult :=
  if maxDepth ≤ currentDepth then
    .mk directoryPath [] [] [] 0 true true
  else
    let acc := scanEntries fsys recursive extensions maxDepth directoryPath
      currentDepth (fsys directoryPath)
    .mk directoryPath acc.files acc.dirs acc.subs acc.total acc.flag true
termination_by (maxDepth - currentDepth, 1, 0)

/-- The `for (const entry of entries)` loop of `scanDirectory`:
matching files are collected, subdirectories are recorded and — when
`recursive` and below the ceiling — scanned at `currentDepth + 1`,
accumulating their file totals and propagating their
`maxDepthReached` flags upward. -/
def scanEntries (fsys : DirTree) (recursive : Bool) (extensions : List String)
    (maxDepth : Nat) (directoryPath : String) (currentDepth : Nat) :
    List FSEntry → ScanAcc
  | [] => ⟨[], [], [], 0, false⟩
  | entry :: rest =>
    let fullPath := pJoin directoryPath entry.name
    let tail := scanEntries fsys recursive extensions maxDepth directoryPath
      currentDepth rest
    if entry.isDir then
      if recursive ∧ currentDepth < maxDepth then
        let sub := scanDirectory fsys recursive extensions maxDepth fullPath
          (currentDepth + 1)
        ⟨tail.files, fullPath :: tail.dirs, sub :: tail.subs,
          sub.totalFiles + tail.total, sub.maxDepthReached || tail.flag⟩
      else ⟨tail.files, fullPath :: tail.dirs, tail.subs, tail.total, tail.flag⟩
    else
      if extensions.contains (asciiLower (pathExtname entry.name)) then
        ⟨fullPath :: tail.files, tail.dirs, tail.subs, tail.total + 1, tail.flag⟩
      else ⟨tail.files, tail.dirs, tail.subs, tail.total, tail.flag⟩
termination_by es => (maxDepth - currentDepth, 0, es.length)

end

/-- Existence of a chain of nested directories of the given length
below a path. -/
def hasDirChain (fsys : DirTree) (p : String) : Nat → Bool
  | 0 => true
  | n + 1 => (fsys p).any (fun e => e.isDir && hasDirChain fsys (pJoin p e.name) n)

/-- The manifest-extensioned files directly inside a directory, in
listing order. -/
def manifestFilesIn (fsys : DirTree) (extensions : List String) (p : String) :
    List String :=
  (fsys p).filterMap (fun e =>
    if !e.isDir && extensions.contains (asciiLower (pathExtname e.name)) then
      some (pJoin p e.name)
    else none)

/-- The immediate subdirectory names of a directory, in listing order. -/
def dirsOf (fsys : DirTree) (p : String) : List String :=
  (fsys p).filterMap (fun e => if e.isDir then some e.name else none)

/-- The result record of `discoverManifestFiles` (without the
`validFiles` / `invalidFiles` fields, which are only present when the
`validate` option is set; the `files` list the claim is about is
computed before any validation). -/
structure DiscoverResult where
  files : List String
  filteredByType : Bool
  totalFound : Nat
  succeeded : Bool
  deriving DecidableEq

/-- The keys of `MANIFEST_TYPE_PATTERNS`. -/
def manifestTypeKeys : List String :=
  ["project", "strategy", "plan", "charter", "session", "report", "suite",
   "case", "status"]

/-- Case-insensitive pattern test `MANIFEST_TYPE_PATTERNS[type].test(fileName)`;
an unknown type has no pattern and never matches. -/
def typeMatches (tp fileName : String) : Bool :=
  if manifestTypeKeys.contains tp then jsIncludes (asciiLower fileName) tp
  else false

/-- `discoverManifestFiles`: scan (with the default `maxDepth` of 10),
then collect the scan's own files plus — when recursive — the files of
each result in `subdirectories` (one level only: nested results are
never descended into), then optionally filter by type patterns. -/
def discoverManifestFiles (fsys : DirTree) (directoryPath : String)
    (recursive : Bool) (types : Option (List String))
    (extensions : List String) : DiscoverResult :=
  let scanResult := scanDirectory fsys recursive extensions 10 directoryPath 0
  let allFiles := scanResult.files ++
    (if recursive then (scanResult.subdirectories.map (fun sd => sd.files)).flatten
     else [])
  let files :=
    match types with
    | some ts =>
      allFiles.filter (fun fp =>
        ts.any (fun t => typeMatches t (pathBasenameExt fp (pathExtname fp))))
    | none => allFiles
  ⟨files, types.isSome, files.length, true⟩

/-- A three-level example tree: one manifest file nested two directory
levels below the root, and nothing else. -/
def exampleTree : DirTree := fun q =>
  if q = "root" then [⟨"d1", true⟩]
  else if q = "root/d1" then [⟨"d2", true⟩]
  else if q = "root/d1/d2" then [⟨"m.json", false⟩]
  else []

/-! ### Directory-scan caching -/

/-- The mutable module state touched by `optimizeDirectoryScanning` and
`getCacheStats`: the `directoryCache` map (an association list keyed
by cache key) and the `cacheStats` counters. -/
structure CacheState where
  cache : List (String × ScanResult)
  hits : Nat
  misses : Nat
  size : Nat

/-- `directoryCache.get`. -/
def cacheGet (cache : List (String × ScanResult)) (k : String) : Option ScanResult :=
  match cache.find? (fun kv => kv.1 = k) with
  | none => none
  | some kv => some kv.2

/-- `directoryCache.set`: replace in place or append. -/
def cacheSet (cache : List (String × ScanResult)) (k : String) (v : ScanResult) :
    List (String × ScanResult) :=
  match cache with
  | [] => [(k, v)]
  | (k', v') :: rest =>
    if k' = k then (k', v) :: rest else (k', v') :: cacheSet rest k v

/-- The fields of `optimizeDirectoryScanning`'s result the claims are
about (`scanTime` is wall-clock time and not modelled). -/
structure OptimizeResult where
  optimized : Bool
  cached : Bool
  succeeded : Bool
  deriving DecidableEq

/-- `optimizeDirectoryScanning`: consult the cache under
`scan-<path>`; a hit bumps `hits` and reports `cached: true` without
rescanning, a miss performs the recursive scan, stores it, bumps
`misses` and updates `size`. -/
def optimizeDirectoryScanning (fsys : DirTree) (st : CacheState)
    (directoryPath : String) : OptimizeResult × CacheState :=
  let cacheKey := "scan-" ++ directoryPath
  match cacheGet st.cache cacheKey with
  | some _ =>
    (⟨true, true, true⟩, { st with hits := st.hits + 1 })
  | none =>
    let result := scanDirectory fsys true MANIFEST_EXTENSIONS 10 directoryPath 0
    let cache' := cacheSet st.cache cacheKey result
    (⟨true, false, true⟩, ⟨cache', st.hits, st.misses + 1, cache'.length⟩)

/-- The report of `getCacheStats`. -/
structure CacheStatsReport where
  hits : Nat
  misses : Nat
  size : Nat
  hitRate : Rat
  deriving DecidableEq

/-- `getCacheStats`: `hits / (hits + misses) || 0` — the `|| 0` turns
the `NaN` of `0/0` into 0, and `0/n` is already 0, so the rate is the
guarded quotient. -/
def getCacheStats (st : CacheState) : CacheStatsReport :=
  ⟨st.hits, st.misses, st.size,
    if st.hits + st.misses = 0 then 0 else (st.hits : Rat) / (st.hits + st.misses)⟩

end FileHelpers

namespace YamlSupport

/-! ## YAML support (`convertJsonToYaml`, `convertYamlToJson`)

The repository functions are one-liners over `JSON.parse`,
`JSON.stringify`, `yaml.dump` and `yaml.load`; the latter four are from
the JS runtime and the js-yaml library, not code of this repository.

Modelled from the spec: `yaml.dump` / `yaml.load` (js-yaml default
schema) are modelled as an emitter and parser for a flow-style YAML
fragment with the schema's implicit scalar resolution — plain scalars
resolve to null, booleans, integers, timestamps (native date values)
or strings, and the emitter single-quotes any string that would not
resolve back to itself, which is exactly how js-yaml protects
date-like, number-like and keyword-like strings.  `JSON.parse` /
`JSON.stringify` are modelled as a parser and emitter for the
matching JSON fragment.  The fragment restricts numeric scalars to
integers, multi-line timestamp forms to the date-only form, and
output formatting to the compact style (indentation is presentation
only and is not observable through parsing). -/

/-- Manifest data as the conversion pipeline sees it.  `date` is what
the js-yaml default schema turns an unquoted timestamp scalar into (a
native `Date`); it can never come out of JSON parsing. -/
inductive YValue where
  | null : YValue
  | bool : Bool → YValue
  | num : Int → YValue
  | str : String → YValue
  | date : String → YValue
  | arr : List YValue → YValue
  | obj : List (String × YValue) → YValue

mutual

/-- Decidable equality on `YValue`. -/
def decEqYValue : (a b : YValue) → Decidable (a = b)
  | .null, .null => isTrue rfl
  | .bool a, .bool b =>
    match decEq a b with
    | isTrue h => isTrue (h ▸ rfl)
    | isFalse h => isFalse (fun he => h (by injection he))
  | .num a, .num b =>
    match decEq a b with
    | isTrue h => isTrue (h ▸ rfl)
    | isFalse h => isFalse (fun he => h (by injection he))
  | .str a, .str b =>
    match decEq a b with
    | isTrue h => isTrue (h ▸ rfl)
    | isFalse h => isFalse (fun he => h (by injection he))
  | .date a, .date b =>
    match decEq a b with
    | isTrue h => isTrue (h ▸ rfl)
    | isFalse h => isFalse (fun he => h (by injection he))
  | .arr a, .arr b =>
    match decEqYList a b with
    | isTrue h => isTrue (h ▸ rfl)
    | isFalse h => isFalse (fun he => h (by injection he))
  | .obj a, .obj b =>
    match decEqYObj a b with
    | isTrue h => isTrue (h ▸ rfl)
    | isFalse h => isFalse (fun he => h (by injection he))
  | .null, .bool _ | .null, .num _ | .null, .str _ | .null, .date _ | .null, .arr _ | .null, .obj _ =>
    isFalse (by intro h; exact absurd h (by simp))
  | .bool _, .null | .bool _, .num _ | .bool _, .str _ | .bool _, .date _ | .bool _, .arr _ | .bool _, .obj _ =>
    isFalse (by intro h; exact absurd h (by simp))
  | .num _, .null | .num _, .bool _ | .num _, .str _ | .num _, .date _ | .num _, .arr _ | .num _, .obj _ =>
    isFalse (by intro h; exact absurd h (by simp))
  | .str _, .null | .str _, .bool _ | .str _, .num _ | .str _, .date _ | .str _, .arr _ | .str _, .obj _ =>
    isFalse (by intro h; exact absurd h (by simp))
  | .date _, .null | .date _, .bool _ | .date _, .num _ | .date _, .str _ | .date _, .arr _ | .date _, .obj _ =>
    isFalse (by intro h; exact absurd h (by simp))
  | .arr _, .null | .arr _, .bool _ | .arr _, .num _ | .arr _, .str _ | .arr _, .date _ | .arr _, .obj _ =>
    isFalse (by intro h; exact absurd h (by simp))
  | .obj _, .null | .obj _, .bool _ | .obj _, .num _ | .obj _, .str _ | .obj _, .date _ | .obj _, .arr _ =>
    isFalse (by intro h; exact absurd h (by simp))

/-- Decidable equality on lists of `YValue`. -/
def decEqYList : (a b : List YValue) → Decidable (a = b)
  | [], [] => isTrue rfl
  | [], _ :: _ => isFalse (by simp)
  | _ :: _, [] => isFalse (by simp)
  | x :: xs, y :: ys =>
    match decEqYValue x y with
    | isFalse h => isFalse (fun he => h (by injection he))
    | isTrue h1 =>
      match decEqYList xs ys with
      | isTrue h2 => isTrue (by rw [h1, h2])
      | isFalse h => isFalse (fun he => h (by injection he))

/-- Decidable equality on `YValue` association lists. -/
def decEqYObj : (a b : List (String × YValue)) → Decidable (a = b)
  | [], [] => isTrue rfl
  | [], _ :: _ => isFalse (by simp)
  | _ :: _, [] => isFalse (by simp)
  | (k, x) :: xs, (l, y) :: ys =>
    match decEq k l with
    | isFalse h => isFalse (fun he => by injection he with h1 h2; exact h (by injection h1))
    | isTrue h0 =>
      match decEqYValue x y with
      | isFalse h => isFalse (fun he => by injection he with h1 h2; exact h (by injection h1))
      | isTrue h1 =>
        match decEqYObj xs ys with
        | isTrue h2 => isTrue (by rw [h0, h1, h2])
        | isFalse h => isFalse (fun he => h (by injection he))

end

instance : DecidableEq YValue := decEqYValue

/-! ### Scalars -/

/-- The decimal digit character for `n < 10`. -/
def digitChar (n : Nat) : Char :=
  Char.ofNat (48 + n)

/-- Decimal digits of a natural number, most significant first
(fuel-based so that it reduces structurally). -/
def natDigitsAux : Nat → Nat → List Char
  | 0, _ => []
  | fuel + 1, n =>
    if n < 10 then [digitChar n]
    else natDigitsAux fuel (n / 10) ++ [digitChar (n % 10)]

/-- Decimal digits of a natural number. -/
def natDigits (n : Nat) : List Char :=
  natDigitsAux (n + 1) n

/-- Decimal representation of an integer. -/
def intRepr (n : Int) : List Char :=
  if n < 0 then '-' :: natDigits (- n).toNat else natDigits n.toNat

/-- Numeric value of a digit list. -/
def digitsVal (ds : List Char) : Nat :=
  ds.foldl (fun a c => a * 10 + (c.toNat - 48)) 0

/-- Does the token spell an optionally-signed decimal integer? -/
def isIntTok : List Char → Bool
  | [] => false
  | c :: rest =>
    if c = '-' then !rest.isEmpty && rest.all (fun d => d.isDigit)
    else (c :: rest).all (fun d => d.isDigit)

/-- The integer value of an integer token. -/
def intTokVal : List Char → Int
  | [] => 0
  | c :: rest =>
    if c = '-' then - (digitsVal rest : Int)
    else (digitsVal (c :: rest) : Int)

/-- Does the token match the date-only YAML timestamp pattern
`yyyy-mm-dd`? -/
def isDateTok : List Char → Bool
  | [a, b, c, d, e, f, g, h, i, j] =>
    a.isDigit && b.isDigit && c.isDigit && d.isDigit && e = '-' &&
    f.isDigit && g.isDigit && h = '-' && i.isDigit && j.isDigit
  | _ => false

/-- Characters allowed in a plain (unquoted) scalar of the modelled
flow fragment: letters, digits, `-`, `_`, `.`. -/
def isPlainChar (c : Char) : Bool :=
  c.isAlpha || c.isDigit || c = '-' || c = '_' || c = '.'

/-- May the string be emitted as a plain scalar at all? -/
def plainOk (cs : List Char) : Bool :=
  !cs.isEmpty && cs.all isPlainChar

/-- Implicit resolution of a plain scalar under the default schema:
null words, boolean words, integers, timestamps — native dates — and
otherwise a string. -/
def resolveScalar (cs : List Char) : YValue :=
  let s := String.mk cs
  if isIntTok cs then .num (intTokVal cs)
  else if isDateTok cs then .date s
  else if s = "null" ∨ s = "Null" ∨ s = "NULL" then .null
  else if s = "true" ∨ s = "True" ∨ s = "TRUE" then .bool true
  else if s = "false" ∨ s = "False" ∨ s = "FALSE" then .bool false
  else .str s

/-- Does the plain scalar resolve back to itself as a string? -/
def resolvesToSelf (cs : List Char) : Bool :=
  match resolveScalar cs with
  | .str _ => true
  | _ => false

/-- Single-quote escaping: a quote is doubled. -/
def sqEscape : List Char → List Char
  | [] => []
  | c :: rest => if c = '\'' then '\'' :: '\'' :: sqEscape rest else c :: sqEscape rest

/-- A single-quoted scalar. -/
def sqWrap (cs : List Char) : List Char :=
  '\'' :: (sqEscape cs ++ ['\''])

/-- The YAML spelling of a string scalar: plain when safe and
self-resolving, single-quoted otherwise (this is what keeps date-like,
number-like and keyword-like strings strings). -/
def yamlStrTok (s : String) : List Char :=
  if plainOk s.toList && resolvesToSelf s.toList then s.toList
  else sqWrap s.toList

/-- The YAML spelling of a mapping key (JS object keys are strings, so
no implicit resolution is involved). -/
def yamlKeyTok (s : String) : List Char :=
  if plainOk s.toList then s.toList else sqWrap s.toList

mutual

/-- Modelled from the spec: `yaml.dump` restricted to the flow
fragment. -/
def yamlDumpV : YValue → List Char
  | .null => "null".toList
  | .bool true => "true".toList
  | .bool false => "false".toList
  | .num n => intRepr n
  | .str s => yamlStrTok s
  | .date s => sqWrap s.toList
  | .arr [] => ['[', ']']
  | .arr (v :: vs) => '[' :: (yamlDumpElems (v :: vs) ++ [']'])
  | .obj [] => ['\x7b', '\x7d']
  | .obj (kv :: kvs) => '\x7b' :: (yamlDumpPairs (kv :: kvs) ++ ['\x7d'])

/-- Comma-separated flow sequence elements. -/
def yamlDumpElems : List YValue → List Char
  | [] => []
  | [v] => yamlDumpV v
  | v :: w :: ws => yamlDumpV v ++ ',' :: yamlDumpElems (w :: ws)

/-- Comma-separated flow mapping entries, `key: value`. -/
def yamlDumpPairs : List (String × YValue) → List Char
  | [] => []
  | [(k, v)] => yamlKeyTok k ++ ':' :: ' ' :: yamlDumpV v
  | (k, v) :: p :: ps =>
    (yamlKeyTok k ++ ':' :: ' ' :: yamlDumpV v) ++ ',' :: yamlDumpPairs (p :: ps)

end

/-- Single-quoted scalar body parser: consume until the closing quote,
reading a doubled quote as a literal one. -/
def parseSQ (acc : List Char) : List Char → Option (String × List Char)
  | [] => none
  | c :: rest =>
    if c = '\'' then
      match rest with
      | d :: rest' =>
        if d = '\'' then parseSQ ('\'' :: acc) rest'
        else some (String.mk acc.reverse, rest)
      | [] => some (String.mk acc.reverse, [])
    else parseSQ (c :: acc) rest

/-- A mapping key: quoted or plain. -/
def parseYKey (cs : List Char) : Option (String × List Char) :=
  match cs with
  | c :: rest =>
    if c = '\'' then parseSQ [] rest
    else
      if (cs.takeWhile isPlainChar).isEmpty then none
      else some (String.mk (cs.takeWhile isPlainChar),
        cs.drop (cs.takeWhile isPlainChar).length)
  | [] => none

mutual

/-- Modelled from the spec: `yaml.load` restricted to the flow
fragment, with the default schema's implicit resolution of plain
scalars (so an unquoted `yyyy-mm-dd` comes back as a native date). -/
def ypValue : Nat → List Char → Option (YValue × List Char)
  | 0, _ => none
  | fuel + 1, cs =>
    match cs with
    | [] => none
    | c :: rest =>
      if c = '[' then
        match rest with
        | d :: rest' =>
          if d = ']' then some (.arr [], rest')
          else
            match ypElems fuel rest with
            | some (vs, rest'') => some (.arr vs, rest'')
            | none => none
        | [] => none
      else if c = '\x7b' then
        match rest with
        | d :: rest' =>
          if d = '\x7d' then some (.obj [], rest')
          else
            match ypPairs fuel rest with
            | some (kvs, rest'') => some (.obj kvs, rest'')
            | none => none
        | [] => none
      else if c = '\'' then
        match parseSQ [] rest with
        | some (s, rest') => some (.str s, rest')
        | none => none
      else
        if (cs.takeWhile isPlainChar).isEmpty then none
        else some (resolveScalar (cs.takeWhile isPlainChar),
          cs.drop (cs.takeWhile isPlainChar).length)

/-- Flow sequence elements after `[`. -/
def ypElems : Nat → List Char → Option (List YValue × List Char)
  | 0, _ => none
  | fuel + 1, cs =>
    match ypValue fuel cs with
    | none => none
    | some (v, rest) =>
      match rest with
      | [] => none
      | d :: rest' =>
        if d = ',' then
          match ypElems fuel rest' with
          | some (vs, rest'') => some (v :: vs, rest'')
          | none => none
        else if d = ']' then some ([v], rest')
        else none

/-- Flow mapping entries after the opening brace. -/
def ypPairs : Nat → List Char → Option (List (String × YValue) × List Char)
  | 0, _ => none
  | fuel + 1, cs =>
    match parseYKey cs with
    | none => none
    | some (k, rest) =>
      match rest with
      | a :: b :: rest' =>
        if a = ':' ∧ b = ' ' then
          match ypValue fuel rest' with
          | none => none
          | some (v, rest'') =>
            match rest'' with
            | [] => none
            | d :: r3 =>
              if d = ',' then
                match ypPairs fuel r3 with
                | some (kvs, r4) => some ((k, v) :: kvs, r4)
                | none => none
              else if d = '\x7d' then some ([(k, v)], r3)
              else none
        else none
      | _ => none

end

/-- Modelled from the spec: `yaml.dump` as a string function. -/
def yamlDump (v : YValue) : String :=
  String.mk (yamlDumpV v)

/-- Modelled from the spec: `yaml.load`; `none` models a parse error.
The whole input must be consumed. -/
def yamlLoad (s : String) : Option YValue :=
  match ypValue (s.length + 1) s.toList with
  | some (v, []) => some v
  | _ => none

/-! ### JSON emitter and parser -/

/-- Double-quote escaping for the JSON fragment: `"` and `\`. -/
def dqEscape : List Char → List Char
  | [] => []
  | c :: rest =>
    if c = '"' || c = '\\' then '\\' :: c :: dqEscape rest
    else c :: dqEscape rest

/-- A double-quoted JSON string literal. -/
def dqWrap (cs : List Char) : List Char :=
  '"' :: (dqEscape cs ++ ['"'])

mutual

/-- Modelled from the spec: `JSON.stringify` restricted to the
fragment (compact; indentation is presentation only). -/
def jsonDumpV : YValue → List Char
  | .null => "null".toList
  | .bool true => "true".toList
  | .bool false => "false".toList
  | .num n => intRepr n
  | .str s => dqWrap s.toList
  | .date s => dqWrap s.toList
  | .arr [] => ['[', ']']
  | .arr (v :: vs) => '[' :: (jsonDumpElems (v :: vs) ++ [']'])
  | .obj [] => ['\x7b', '\x7d']
  | .obj (kv :: kvs) => '\x7b' :: (jsonDumpPairs (kv :: kvs) ++ ['\x7d'])

/-- Comma-separated JSON array elements. -/
def jsonDumpElems : List YValue → List Char
  | [] => []
  | [v] => jsonDumpV v
  | v :: w :: ws => jsonDumpV v ++ ',' :: jsonDumpElems (w :: ws)

/-- Comma-separated JSON object entries, `"key":value`. -/
def jsonDumpPairs : List (String × YValue) → List Char
  | [] => []
  | [(k, v)] => dqWrap k.toList ++ ':' :: jsonDumpV v
  | (k, v) :: p :: ps =>
    (dqWrap k.toList ++ ':' :: jsonDumpV v) ++ ',' :: jsonDumpPairs (p :: ps)

end

/-- Double-quoted JSON string body parser for the fragment's two
escapes. -/
def parseDQ (acc : List Char) : List Char → Option (String × List Char)
  | [] => none
  | c :: rest =>
    if c = '"' then some (String.mk acc.reverse, rest)
    else if c = '\\' then
      match rest with
      | d :: rest' => if d = '"' || d = '\\' then parseDQ (d :: acc) rest' else none
      | [] => none
    else parseDQ (c :: acc) rest

mutual

/-- Modelled from the spec: `JSON.parse` restricted to the fragment. -/
def jpValue : Nat → List Char → Option (YValue × List Char)
  | 0, _ => none
  | fuel + 1, cs =>
    match cs with
    | [] => none
    | c :: rest =>
      if c = '"' then
        match parseDQ [] rest with
        | some (s, rest') => some (.str s, rest')
        | none => none
      else if c = '[' then
        match rest with
        | d :: rest' =>
          if d = ']' then some (.arr [], rest')
          else
            match jpElems fuel rest with
            | some (vs, rest'') => some (.arr vs, rest'')
            | none => none
        | [] => none
      else if c = '\x7b' then
        match rest with
        | d :: rest' =>
          if d = '\x7d' then some (.obj [], rest')
          else
            match jpPairs fuel rest with
            | some (kvs, rest'') => some (.obj kvs, rest'')
            | none => none
        | [] => none
      else if c = '-' then
        if (rest.takeWhile (fun d => d.isDigit)).isEmpty then none
        else some (.num (- (digitsVal (rest.takeWhile (fun d => d.isDigit)) : Int)),
          rest.drop (rest.takeWhile (fun d => d.isDigit)).length)
      else if c.isDigit then
        if (cs.takeWhile (fun d => d.isDigit)).isEmpty then none
        else some (.num (digitsVal (cs.takeWhile (fun d => d.isDigit)) : Int),
          cs.drop (cs.takeWhile (fun d => d.isDigit)).length)
      else
        if cs.takeWhile (fun d => d.isAlpha) = ['n', 'u', 'l', 'l'] then
          some (.null, cs.drop 4)
        else if cs.takeWhile (fun d => d.isAlpha) = ['t', 'r', 'u', 'e'] then
          some (.bool true, cs.drop 4)
        else if cs.takeWhile (fun d => d.isAlpha) = ['f', 'a', 'l', 's', 'e'] then
          some (.bool false, cs.drop 5)
        else none

/-- JSON array elements after `[`. -/
def jpElems : Nat → List Char → Option (List YValue × List Char)
  | 0, _ => none
  | fuel + 1, cs =>
    match jpValue fuel cs with
    | none => none
    | some (v, rest) =>
      match rest with
      | [] => none
      | d :: rest' =>
        if d = ',' then
          match jpElems fuel rest' with
          | some (vs, rest'') => some (v :: vs, rest'')
          | none => none
        else if d = ']' then some ([v], rest')
        else none

/-- JSON object entries after the opening brace. -/
def jpPairs : Nat → List Char → Option (List (String × YValue) × List Char)
  | 0, _ => none
  | fuel + 1, cs =>
    match cs with
    | c :: rest =>
      if c = '"' then
        match parseDQ [] rest with
        | none => none
        | some (k, rest') =>
          match rest' with
          | a :: rest'' =>
            if a = ':' then
              match jpValue fuel rest'' with
              | none => none
              | some (v, r3) =>
                match r3 with
                | [] => none
                | d :: r4 =>
                  if d = ',' then
                    match jpPairs fuel r4 with
                    | some (kvs, r5) => some ((k, v) :: kvs, r5)
                    | none => none
                  else if d = '\x7d' then some ([(k, v)], r4)
                  else none
            else none
          | [] => none
      else none
    | [] => none

end

/-- Modelled from the spec: `JSON.stringify` as a string function. -/
def jsonStringify (v : YValue) : String :=
  String.mk (jsonDumpV v)

/-- Modelled from the spec: `JSON.parse`; `none` models a thrown
SyntaxError.  The whole input must be consumed. -/
def jsonParse (s : String) : Option YValue :=
  match jpValue (s.length + 1) s.toList with
  | some (v, []) => some v
  | _ => none

/-! ### The repository's conversion functions -/

/-- `convertJsonToYaml`: `JSON.parse` then `yaml.dump`; a parse error
is rethrown with a fixed prefix. -/
def convertJsonToYaml (jsonContent : String) : Except String String :=
  match jsonParse jsonContent with
  | some data => Except.ok (yamlDump data)
  | none => Except.error "Failed to convert JSON to YAML"

/-- `convertYamlToJson`: `yaml.load` then `JSON.stringify`; a parse
error is rethrown with a fixed prefix. -/
def convertYamlToJson (yamlContent : String) : Except String String :=
  match yamlLoad yamlContent with
  | some data => Except.ok (jsonStringify data)
  | none => Except.error "Failed to convert YAML to JSON"

/-! ### Side conditions used by the round-trip proofs -/

/-- The next character (if any) does not satisfy the predicate. -/
def headNotSat (p : Char → Bool) : List Char → Prop
  | [] => True
  | c :: _ => p c = false

/-- The rest of the input after a printed value, in any context the
printers generate: empty or starting with a separator or closer. -/
def goodRest : List Char → Prop
  | [] => True
  | c :: _ => c = ',' ∨ c = ']' ∨ c = '}'

/-- The next character (if any) is not a single quote. -/
def quoteFree : List Char → Prop
  | [] => True
  | c :: _ => c ≠ '\''

/-! ### Well-formedness of manifest data for the round trip -/

/-- Characters representable inside both quoting styles of the
fragment: no control characters. -/
def wfChar (c : Char) : Bool :=
  32 ≤ c.toNat

mutual

/-- No native dates and no control characters in strings or keys:
the model's reading of "no YAML-incompatible values". -/
def wfV : YValue → Bool
  | .null => true
  | .bool _ => true
  | .num _ => true
  | .str s => s.toList.all wfChar
  | .date _ => false
  | .arr vs => wfL vs
  | .obj kvs => wfP kvs

/-- Well-formedness of array elements. -/
def wfL : List YValue → Bool
  | [] => true
  | v :: vs => wfV v && wfL vs

/-- Well-formedness of object entries. -/
def wfP : List (String × YValue) → Bool
  | [] => true
  | (k, v) :: kvs => k.toList.all wfChar && wfV v && wfP kvs

end

end YamlSupport

/-! ## Theorems for the claims -/

section Claims

open ManifestService

/-- Claim C1, counterexample: the basename of `status-report.json`
contains `report`, which is tested before `status` in the source's
if-chain, so `processManifestFiles` infers `test-report` for it — not
`test-status-report` as the claim states.  The last conjunct runs
`processManifestFiles` on a service whose validator reports the schema
type it was asked to validate against, making the inferred type
observable in the returned envelope. -/
theorem inferSchemaType_statusReport_cex :
    inferSchemaType (pathBasenameExt "status-report.json"
      (getFileExtension "status-report.json")) = "test-report" ∧
    inferSchemaType (pathBasenameExt "status-report.json"
      (getFileExtension "status-report.json")) ≠ "test-status-report" ∧
    (processManifestFiles
        { schemas := ["project", "test-strategy", "test-plan", "test-charter",
                      "test-session", "test-report", "test-suite", "test-case",
                      "test-status-report"],
          parseJson := fun _ => Except.ok (JsValue.obj []),
          parseYaml := fun _ => Except.ok JsValue.null,
          validatorErrors := fun t _ => [t] }
        (fun p => if p = "status-report.json" then some "\x7b\x7d" else none)
        ["status-report.json"]).map Envelope.errors = [["test-report"]] := by
  refine ⟨by decide, by decide, by decide⟩

/-- Claim C1, amended: `processManifestFiles` infers each file's schema
type from the extension-stripped basename by first-match substring
search in the priority order strategy, plan, charter, session, report,
suite, case, status, defaulting to `project`; for `project1.json`,
`strategy1.yaml` and `charter-final.yml` it infers `project`,
`test-strategy` and `test-charter`, but for `status-report.json` it
infers `test-report`, because `report` precedes `status` in the
priority order. -/
theorem processManifestFiles_inference_amended :
    (∀ (svc : Service) (fsys : FileSys) (filePaths : List String),
      processManifestFiles svc fsys filePaths =
        filePaths.map (fun p =>
          validateManifest svc fsys p
            (inferSchemaType (pathBasenameExt p (getFileExtension p))))) ∧
    (∀ fn, inferSchemaType fn = inferSchemaTypeSpec fn) ∧
    inferSchemaType (pathBasenameExt "project1.json"
      (getFileExtension "project1.json")) = "project" ∧
    inferSchemaType (pathBasenameExt "strategy1.yaml"
      (getFileExtension "strategy1.yaml")) = "test-strategy" ∧
    inferSchemaType (pathBasenameExt "charter-final.yml"
      (getFileExtension "charter-final.yml")) = "test-charter" ∧
    inferSchemaType (pathBasenameExt "status-report.json"
      (getFileExtension "status-report.json")) = "test-report" := by
  refine ⟨fun svc fsys filePaths => rfl, fun fn => ?_, by decide, by decide, by decide, by decide⟩
  unfold inferSchemaType inferSchemaTypeSpec priorityTable
  simp only [List.find?]
  split_ifs <;> simp_all

/-- Claim C3: `validateManifest` is total into the envelope type (never
throws); the returned envelope always carries the triggering file
path, carries data only when validation succeeds, turns any read or
parse failure into an invalid envelope listing the error message,
reports an unknown schema type the same way, and on success returns
the parsed payload with an empty error list. -/
theorem validateManifest_error_envelope
    (svc : Service) (fsys : FileSys) (filePath schemaType : String) :
    (validateManifest svc fsys filePath schemaType).filePath = filePath ∧
    ((validateManifest svc fsys filePath schemaType).isValid = false →
      (validateManifest svc fsys filePath schemaType).data = none) ∧
    (∀ msg, readManifestFile svc fsys filePath = Except.error msg →
      validateManifest svc fsys filePath schemaType =
        { isValid := false, data := none, errors := [msg], filePath := filePath }) ∧
    (∀ v, readManifestFile svc fsys filePath = Except.ok v →
      svc.schemas.contains schemaType = false →
      validateManifest svc fsys filePath schemaType =
        { isValid := false, data := none,
          errors := ["Unknown schema type: " ++ schemaType], filePath := filePath }) ∧
    ((validateManifest svc fsys filePath schemaType).isValid = true →
      ∃ v, readManifestFile svc fsys filePath = Except.ok v ∧
        (validateManifest svc fsys filePath schemaType).data = some v ∧
        svc.validatorErrors schemaType v = []) := by
  unfold validateManifest
  cases hr : readManifestFile svc fsys filePath with
  | error msg => simp
  | ok v =>
    by_cases hs : svc.schemas.contains schemaType
    · by_cases he : (svc.validatorErrors schemaType v).isEmpty
      · simp_all [List.isEmpty_iff]
      · simp_all
    · simp_all

/-- Claim C3, witness: the characterization of `validateManifest`
evaluated on a concrete service and a one-file file system, both for a
missing file and for a present one validated against an unknown schema
type. -/
theorem validateManifest_error_envelope_witness :
    (validateManifest
        { schemas := ["project"],
          parseJson := fun _ => Except.ok (JsValue.obj []),
          parseYaml := fun _ => Except.ok JsValue.null,
          validatorErrors := fun _ _ => [] }
        (fun p => if p = "a.json" then some "\x7b\x7d" else none)
        "missing.json" "project").data = none ∧
    validateManifest
        { schemas := ["project"],
          parseJson := fun _ => Except.ok (JsValue.obj []),
          parseYaml := fun _ => Except.ok JsValue.null,
          validatorErrors := fun _ _ => [] }
        (fun p => if p = "a.json" then some "\x7b\x7d" else none)
        "a.json" "nonsense" =
      { isValid := false, data := none,
        errors := ["Unknown schema type: nonsense"], filePath := "a.json" } := by
  constructor
  · exact (validateManifest_error_envelope _ _ "missing.json" "project").2.1 rfl
  · exact (validateManifest_error_envelope _ _ "a.json" "nonsense").2.2.2.1
      (JsValue.obj []) rfl rfl

/-- Claim C2, counterexample: a report whose `metrics` object exists
but lacks `testCasesExecuted` makes `getTestCasesExecuted()` return
`undefined`, which is neither `=== null` nor `=== 0`, so both getters
fall through the guard and compute NaN instead of returning null as
the claim states. -/
theorem testReport_passRate_nan_cex :
    Models.getPassRate ⟨some ⟨.undef, .num (.val 5)⟩⟩ = some .nan ∧
    Models.getPassRate ⟨some ⟨.undef, .num (.val 5)⟩⟩ ≠ none ∧
    Models.getDefectDensity ⟨some ⟨.undef, .num (.val 5)⟩⟩ = some .nan := by
  refine ⟨by decide, by decide, by decide⟩

/-- Claim C2, amended: the getters return null whenever the executed
count reads as `null` (in particular whenever `metrics` is absent) or
as `0`; when `metrics` exists but `testCasesExecuted` is absent, both
getters return NaN rather than null; for a finite nonzero executed
count `e` the pass rate is `round(100 × (e − defects) / e)` and the
defect density is `defects / e`, with an absent `defectsFound` treated
as 0; no case raises a division error.  For executed 50 and defects 5
these are 90 and 0.1. -/
theorem testReport_rates_amended :
    (∀ r : Models.TestReport,
      (Models.getTestCasesExecuted r = .jsNull ∨
        Models.getTestCasesExecuted r = .num (.val 0)) →
      Models.getPassRate r = none ∧ Models.getDefectDensity r = none) ∧
    (∀ r : Models.TestReport, r.metrics = none →
      Models.getPassRate r = none ∧ Models.getDefectDensity r = none) ∧
    (∀ m : Models.Metrics, m.testCasesExecuted = .undef →
      Models.getPassRate ⟨some m⟩ = some .nan ∧
      Models.getDefectDensity ⟨some m⟩ = some .nan) ∧
    (∀ (r : Models.TestReport) (e : Rat),
      Models.getTestCasesExecuted r = .num (.val e) → e ≠ 0 →
      Models.getPassRate r =
        some (.val (Models.jsMathRound (100 * (e - Models.defectsOrZero r) / e))) ∧
      Models.getDefectDensity r = some (.val (Models.defectsOrZero r / e))) ∧
    Models.getPassRate ⟨some ⟨.num (.val 50), .num (.val 5)⟩⟩ = some (.val 90) ∧
    Models.getDefectDensity ⟨some ⟨.num (.val 50), .num (.val 5)⟩⟩ =
      some (.val (1 / 10)) ∧
    Models.getPassRate ⟨some ⟨.num (.val 0), .num (.val 5)⟩⟩ = none ∧
    Models.getDefectDensity ⟨some ⟨.num (.val 0), .num (.val 5)⟩⟩ = none ∧
    Models.getPassRate ⟨none⟩ = none ∧
    Models.getDefectDensity ⟨none⟩ = none := by
  refine ⟨?_, ?_, ?_, ?_, ?_, ?_, by decide, by decide, by decide, by decide⟩
  · intro r h
    constructor <;> simp [Models.getPassRate, Models.getDefectDensity, h]
  · intro r h
    have hx : Models.getTestCasesExecuted r = .jsNull := by
      simp [Models.getTestCasesExecuted, h]
    constructor <;> simp [Models.getPassRate, Models.getDefectDensity, hx]
  · intro m h
    have hx : Models.getTestCasesExecuted ⟨some m⟩ = .undef := h
    constructor
    · simp [Models.getPassRate, hx, Models.toNumber, Models.jsSub, Models.jsDiv,
        Models.jsMul, Models.jsNumRound]
    · simp [Models.getDefectDensity, hx, Models.toNumber, Models.jsDiv]
  · intro r e he hne
    have hguard : ¬ (Models.getTestCasesExecuted r = .jsNull ∨
        Models.getTestCasesExecuted r = .num (.val 0)) := by
      simp [he, hne]
    constructor
    · cases hd : Models.getDefectsFound r with
      | num n =>
        cases n with
        | nan =>
          simp [Models.getPassRate, he, hne, Models.toNumber, Models.orZero, hd,
            Models.jsSub, Models.jsDiv, Models.jsMul, Models.jsNumRound,
            Models.defectsOrZero]
          try ring_nf
        | val q =>
          simp [Models.getPassRate, he, hne, Models.toNumber, Models.orZero, hd,
            Models.jsSub, Models.jsDiv, Models.jsMul, Models.jsNumRound,
            Models.defectsOrZero]
          try ring_nf
      | undef =>
        simp [Models.getPassRate, he, hne, Models.toNumber, Models.orZero, hd,
          Models.jsSub, Models.jsDiv, Models.jsMul, Models.jsNumRound,
          Models.defectsOrZero]
        try ring_nf
      | jsNull =>
        simp [Models.getPassRate, he, hne, Models.toNumber, Models.orZero, hd,
          Models.jsSub, Models.jsDiv, Models.jsMul, Models.jsNumRound,
          Models.defectsOrZero]
        try ring_nf
    · cases hd : Models.getDefectsFound r with
      | num n =>
        cases n with
        | nan =>
          simp [Models.getDefectDensity, he, hne, Models.toNumber, Models.orZero,
            hd, Models.jsDiv, Models.defectsOrZero]
        | val q =>
          simp [Models.getDefectDensity, he, hne, Models.toNumber, Models.orZero,
            hd, Models.jsDiv, Models.defectsOrZero]
      | undef =>
        simp [Models.getDefectDensity, he, hne, Models.toNumber, Models.orZero,
          hd, Models.jsDiv, Models.defectsOrZero]
      | jsNull =>
        simp [Models.getDefectDensity, he, hne, Models.toNumber, Models.orZero,
          hd, Models.jsDiv, Models.defectsOrZero]
  · simp [Models.getPassRate, Models.getTestCasesExecuted, Models.getDefectsFound,
      Models.toNumber, Models.orZero, Models.jsSub, Models.jsDiv, Models.jsMul,
      Models.jsNumRound, Models.jsMathRound]
    norm_num
  · simp [Models.getDefectDensity, Models.getTestCasesExecuted,
      Models.getDefectsFound, Models.toNumber, Models.orZero, Models.jsDiv]
    norm_num

/-- Claim C2, witness: the finite-count branch of the amended theorem
applied at executed 50, defects 5. -/
theorem testReport_rates_amended_witness :
    Models.getPassRate ⟨some ⟨.num (.val 50), .num (.val 5)⟩⟩ =
      some (.val (Models.jsMathRound
        (100 * (50 - Models.defectsOrZero ⟨some ⟨.num (.val 50), .num (.val 5)⟩⟩) / 50))) :=
  (testReport_rates_amended.2.2.2.1 ⟨some ⟨.num (.val 50), .num (.val 5)⟩⟩ 50
    rfl (by norm_num)).1

/-- Claim C5: `calculateDurationFromTimes` returns null when either
time is missing (absent or empty) or malformed — not a 3-part
colon-separated string, or with a component that `parseInt` cannot
read a number from — and otherwise the end-minus-start millisecond
difference divided by 60000 and rounded to the nearest minute, both
times being offsets from the same current-date midnight (which
cancels in the difference); `10:00:00` to `11:30:00` gives 90, and a
missing `endTime` gives null. -/
theorem calculateDurationFromTimes_spec :
    (∀ sess : Models.TestSession,
      (Models.presentString sess.startTime = none ∨
        Models.presentString sess.endTime = none) →
      Models.calculateDurationFromTimes sess = none) ∧
    (∀ (sess : Models.TestSession) (st et : String),
      Models.presentString sess.startTime = some st →
      Models.presentString sess.endTime = some et →
      (Models.parseTimeMs st = none ∨ Models.parseTimeMs et = none) →
      Models.calculateDurationFromTimes sess = none) ∧
    (∀ (sess : Models.TestSession) (st et : String) (a b : Int),
      Models.presentString sess.startTime = some st →
      Models.presentString sess.endTime = some et →
      Models.parseTimeMs st = some a → Models.parseTimeMs et = some b →
      Models.calculateDurationFromTimes sess =
        some (Models.jsMathRound (((b - a : Int) : Rat) / 60000))) ∧
    (∀ ts : String, ts ≠ "" →
      (Models.parseTimeMs ts = none ↔
        ((splitOnChar ':' ts.toList).length ≠ 3 ∨
          ∃ part ∈ splitOnChar ':' ts.toList,
            Models.jsParseInt (String.mk part) = none))) ∧
    Models.calculateDurationFromTimes ⟨some "10:00:00", some "11:30:00"⟩ = some 90 ∧
    (∀ s, Models.calculateDurationFromTimes ⟨s, none⟩ = none) := by
  refine ⟨?_, ?_, ?_, ?_, ?_, ?_⟩
  · intro sess h
    rcases h with h | h
    · simp [Models.calculateDurationFromTimes, h]
    · cases hs : Models.presentString sess.startTime <;>
        simp [Models.calculateDurationFromTimes, h, hs]
  · intro sess st et hst het h
    rcases h with h | h
    · simp [Models.calculateDurationFromTimes, hst, het, h]
    · cases hs : Models.parseTimeMs st <;>
        simp [Models.calculateDurationFromTimes, hst, het, h, hs]
  · intro sess st et a b hst het ha hb
    simp [Models.calculateDurationFromTimes, hst, het, ha, hb]
  · intro ts hne
    unfold Models.parseTimeMs
    rw [if_neg hne]
    rcases hsp : splitOnChar ':' ts.toList with _ | ⟨p1, _ | ⟨p2, _ | ⟨p3, _ | ⟨p4, ps⟩⟩⟩⟩ <;>
      simp only [List.map]
    · simp
    · simp
    · simp
    · cases h1 : Models.jsParseInt (String.mk p1) <;>
        cases h2 : Models.jsParseInt (String.mk p2) <;>
        cases h3 : Models.jsParseInt (String.mk p3) <;>
        simp_all
    · simp [List.length]
  · have h1 : Models.parseTimeMs "10:00:00" = some 36000000 := by decide
    have h2 : Models.parseTimeMs "11:30:00" = some 41400000 := by decide
    simp [Models.calculateDurationFromTimes, Models.presentString, h1, h2]
    norm_num [Models.jsMathRound]
  · intro s
    cases hs : Models.presentString s <;>
      simp [Models.calculateDurationFromTimes, Models.presentString, hs]

/-- Claim C5, witness: the success branch of the specification applied
to the session running from 10:00:00 to 11:30:00. -/
theorem calculateDurationFromTimes_spec_witness :
    Models.calculateDurationFromTimes ⟨some "10:00:00", some "11:30:00"⟩ =
      some (Models.jsMathRound (((41400000 - 36000000 : Int) : Rat) / 60000)) :=
  calculateDurationFromTimes_spec.2.2.1 ⟨some "10:00:00", some "11:30:00"⟩
    "10:00:00" "11:30:00" 36000000 41400000 rfl rfl (by decide) (by decide)

/-- Claim C6, counterexample: merging `{a: [1,2]}` with `{a: {y:2}}`.
The base value `[1,2]` is an array, not a plain object, so by the
claim the extra value should replace it outright, giving `{a: {y:2}}`.
The code tests `Array.isArray` only on the extra value, recurses, and
spreads the array into the working object, yielding
`{a: {0:1, 1:2, y:2}}`. -/
theorem mergeManifestData_array_base_cex :
    ManifestHelpers.mergeManifestData
        (.obj [("a", .arr [.num 1, .num 2])]) (.obj [("a", .obj [("y", .num 2)])]) =
      some [("a", .obj [("0", .num 1), ("1", .num 2), ("y", .num 2)])] ∧
    ManifestHelpers.mergeManifestData
        (.obj [("a", .arr [.num 1, .num 2])]) (.obj [("a", .obj [("y", .num 2)])]) ≠
      some [("a", .obj [("y", .num 2)])] := by
  constructor
  · simp +decide [ManifestHelpers.mergeManifestData, ManifestHelpers.mergeEntries,
      ManifestHelpers.spreadObj, ManifestHelpers.getKey, ManifestHelpers.setKey,
      ManifestHelpers.indexedFrom, ManifestHelpers.isObjTruthy,
      ManifestHelpers.isPlainObjTyped]
  · simp +decide [ManifestHelpers.mergeManifestData, ManifestHelpers.mergeEntries,
      ManifestHelpers.spreadObj, ManifestHelpers.getKey, ManifestHelpers.setKey,
      ManifestHelpers.indexedFrom, ManifestHelpers.isObjTruthy,
      ManifestHelpers.isPlainObjTyped]

/-- Claim C6, amended: the merge recurses at a key exactly when the
base value is object-typed and truthy (a plain object or an array —
`Array.isArray` is only tested on the extra value) and the extra value
is object-typed and not an array (a plain object or `null`).  An extra
plain object meeting a base plain object merges recursively; meeting a
base array it recurses over the array's spread (indexed entries);
an extra `null` meeting such a base throws.  In every other case the
extra value replaces the base value outright — in particular arrays in
the extra replace wholesale, never concatenated.  Merging `{a:{x:1}}`
with `{a:{y:2}}` yields `{a:{x:1,y:2}}`, and `{a:[1,2]}` with
`{a:[3]}` yields `{a:[3]}`. -/
theorem mergeManifestData_policy_amended :
    (∀ (bs es : List (String × JsValue)),
      ManifestHelpers.mergeManifestData (.obj bs) (.obj es) =
        ManifestHelpers.mergeEntries bs es) ∧
    (∀ (bs : List (String × JsValue)) (k : String) (v : JsValue),
      ManifestHelpers.isPlainObjTyped v = false →
      ManifestHelpers.mergeManifestData (.obj bs) (.obj [(k, v)]) =
        some (ManifestHelpers.setKey bs k v)) ∧
    (∀ (bs : List (String × JsValue)) (k : String) (y : List (String × JsValue)),
      ManifestHelpers.isObjTruthy (ManifestHelpers.getKey bs k) = false →
      ManifestHelpers.mergeManifestData (.obj bs) (.obj [(k, .obj y)]) =
        some (ManifestHelpers.setKey bs k (.obj y))) ∧
    (∀ (bs x y : List (String × JsValue)) (k : String),
      ManifestHelpers.getKey bs k = some (.obj x) →
      ManifestHelpers.mergeManifestData (.obj bs) (.obj [(k, .obj y)]) =
        (ManifestHelpers.mergeManifestData (.obj x) (.obj y)).map
          (fun m => ManifestHelpers.setKey bs k (.obj m))) ∧
    (∀ (bs y : List (String × JsValue)) (xs : List JsValue) (k : String),
      ManifestHelpers.getKey bs k = some (.arr xs) →
      ManifestHelpers.mergeManifestData (.obj bs) (.obj [(k, .obj y)]) =
        (ManifestHelpers.mergeEntries (ManifestHelpers.indexedFrom 0 xs) y).map
          (fun m => ManifestHelpers.setKey bs k (.obj m))) ∧
    (∀ (bs : List (String × JsValue)) (k : String),
      ManifestHelpers.isObjTruthy (ManifestHelpers.getKey bs k) = true →
      ManifestHelpers.mergeManifestData (.obj bs) (.obj [(k, .null)]) = none) ∧
    (∀ (bs : List (String × JsValue)) (k : String),
      ManifestHelpers.isObjTruthy (ManifestHelpers.getKey bs k) = false →
      ManifestHelpers.mergeManifestData (.obj bs) (.obj [(k, .null)]) =
        some (ManifestHelpers.setKey bs k .null)) ∧
    ManifestHelpers.mergeManifestData
        (.obj [("a", .obj [("x", .num 1)])]) (.obj [("a", .obj [("y", .num 2)])]) =
      some [("a", .obj [("x", .num 1), ("y", .num 2)])] ∧
    ManifestHelpers.mergeManifestData
        (.obj [("a", .arr [.num 1, .num 2])]) (.obj [("a", .arr [.num 3])]) =
      some [("a", .arr [.num 3])] := by
  refine ⟨?_, ?_, ?_, ?_, ?_, ?_, ?_, ?_, ?_⟩
  · intro bs es
    simp [ManifestHelpers.mergeManifestData, ManifestHelpers.spreadObj]
  · intro bs k v hv
    simp [ManifestHelpers.mergeManifestData, ManifestHelpers.mergeEntries,
      ManifestHelpers.spreadObj, hv]
  · intro bs k y hb
    simp [ManifestHelpers.mergeManifestData, ManifestHelpers.mergeEntries,
      ManifestHelpers.spreadObj, hb]
  · intro bs x y k hb
    have hrec : ManifestHelpers.mergeManifestData (.obj x) (.obj y) =
        ManifestHelpers.mergeEntries x y := by
      simp [ManifestHelpers.mergeManifestData, ManifestHelpers.spreadObj]
    rw [hrec]
    cases hm : ManifestHelpers.mergeEntries x y with
    | none =>
      simp [ManifestHelpers.mergeManifestData, ManifestHelpers.mergeEntries,
        ManifestHelpers.spreadObj, hb, ManifestHelpers.isObjTruthy,
        ManifestHelpers.isPlainObjTyped, hm]
    | some m =>
      simp [ManifestHelpers.mergeManifestData, ManifestHelpers.mergeEntries,
        ManifestHelpers.spreadObj, hb, ManifestHelpers.isObjTruthy,
        ManifestHelpers.isPlainObjTyped, hm]
  · intro bs y xs k hb
    cases hm : ManifestHelpers.mergeEntries (ManifestHelpers.indexedFrom 0 xs) y with
    | none =>
      simp [ManifestHelpers.mergeManifestData, ManifestHelpers.mergeEntries,
        ManifestHelpers.spreadObj, hb, ManifestHelpers.isObjTruthy,
        ManifestHelpers.isPlainObjTyped, hm]
    | some m =>
      simp [ManifestHelpers.mergeManifestData, ManifestHelpers.mergeEntries,
        ManifestHelpers.spreadObj, hb, ManifestHelpers.isObjTruthy,
        ManifestHelpers.isPlainObjTyped, hm]
  · intro bs k hb
    simp [ManifestHelpers.mergeManifestData, ManifestHelpers.mergeEntries,
      ManifestHelpers.spreadObj, hb, ManifestHelpers.isPlainObjTyped]
  · intro bs k hb
    simp [ManifestHelpers.mergeManifestData, ManifestHelpers.mergeEntries,
      ManifestHelpers.spreadObj, hb, ManifestHelpers.isPlainObjTyped]
  · simp +decide [ManifestHelpers.mergeManifestData, ManifestHelpers.mergeEntries,
      ManifestHelpers.spreadObj, ManifestHelpers.getKey, ManifestHelpers.setKey,
      ManifestHelpers.indexedFrom, ManifestHelpers.isObjTruthy,
      ManifestHelpers.isPlainObjTyped]
  · simp +decide [ManifestHelpers.mergeManifestData, ManifestHelpers.mergeEntries,
      ManifestHelpers.spreadObj, ManifestHelpers.getKey, ManifestHelpers.setKey,
      ManifestHelpers.indexedFrom, ManifestHelpers.isObjTruthy,
      ManifestHelpers.isPlainObjTyped]

/-- Claim C6, witness: the recursive-merge branch of the amended
theorem applied to `{a:{x:1}}` and `{a:{y:2}}`. -/
theorem mergeManifestData_policy_amended_witness :
    ManifestHelpers.mergeManifestData
        (.obj [("a", .obj [("x", .num 1)])]) (.obj [("a", .obj [("y", .num 2)])]) =
      (ManifestHelpers.mergeManifestData
          (.obj [("x", .num 1)]) (.obj [("y", .num 2)])).map
        (fun m => ManifestHelpers.setKey [("a", .obj [("x", .num 1)])] "a" (.obj m)) :=
  mergeManifestData_policy_amended.2.2.2.1
    [("a", .obj [("x", .num 1)])] [("x", .num 1)] [("y", .num 2)] "a"
    (by simp +decide [ManifestHelpers.getKey])

/-- Run of the retry loop when every attempt throws: it fails after
exactly `maxRetries` invocations with the exhaustion object, sleeping
the exponential-backoff delays in order. -/
theorem retryAux_allFail (op : Nat → Except String JsValue) (e : Nat → String)
    (hop : ∀ n, op n = Except.error (e n)) (base maxR : Nat) :
    ∀ d attempt, 1 ≤ attempt → attempt ≤ maxR → maxR - attempt = d →
    ErrorHandlers.retryAux op base maxR attempt =
      ⟨⟨false, none, some "max_retries_exceeded", some (e maxR), maxR⟩,
        maxR + 1 - attempt,
        (List.range' (attempt - 1) (maxR - attempt)).map (fun n => base * 2 ^ n)⟩ := by
  intro d
  induction d with
  | zero =>
    intro attempt h1 h2 hd
    have heq : attempt = maxR := by omega
    subst heq
    unfold ErrorHandlers.retryAux
    simp only [hop]
    simp [List.range']
    try omega
  | succ d ih =>
    intro attempt h1 h2 hd
    have hlt : attempt < maxR := by omega
    unfold ErrorHandlers.retryAux
    simp only [hop]
    rw [if_neg (by omega)]
    rw [ih (attempt + 1) (by omega) (by omega) (by omega)]
    simp only [ErrorHandlers.RetryTrace.mk.injEq]
    refine ⟨by trivial, by omega, ?_⟩
    rw [show maxR - attempt = (maxR - (attempt + 1)) + 1 from by omega,
      List.range'_succ, List.map_cons,
      show attempt - 1 + 1 = attempt from by omega]
    simp

/-- Run of the retry loop when the first success is at attempt `k`:
it succeeds with attempt count `k` after exactly `k` invocations. -/
theorem retryAux_success (op : Nat → Except String JsValue) (base maxR k : Nat)
    (v : JsValue) (hk : k ≤ maxR)
    (hops : ∀ i, i < k → ∃ er, op i = Except.error er) (hsucc : op k = Except.ok v) :
    ∀ d attempt, 1 ≤ attempt → attempt ≤ k → k - attempt = d →
    ErrorHandlers.retryAux op base maxR attempt =
      ⟨⟨true, some v, none, none, k⟩, k + 1 - attempt,
        (List.range' (attempt - 1) (k - attempt)).map (fun n => base * 2 ^ n)⟩ := by
  intro d
  induction d with
  | zero =>
    intro attempt h1 h2 hd
    have heq : attempt = k := by omega
    subst heq
    unfold ErrorHandlers.retryAux
    simp only [hsucc]
    simp [List.range']
    try omega
  | succ d ih =>
    intro attempt h1 h2 hd
    have hlt : attempt < k := by omega
    obtain ⟨er, her⟩ := hops attempt hlt
    unfold ErrorHandlers.retryAux
    simp only [her]
    rw [if_neg (by omega)]
    rw [ih (attempt + 1) (by omega) (by omega) (by omega)]
    simp only [ErrorHandlers.RetryTrace.mk.injEq]
    refine ⟨by trivial, by omega, ?_⟩
    rw [show k - attempt = (k - (attempt + 1)) + 1 from by omega,
      List.range'_succ, List.map_cons,
      show attempt - 1 + 1 = attempt from by omega]
    simp

/-- Claim C8: with `maxRetries = 2` an always-throwing operation is
invoked exactly twice and the run resolves with `success: false`,
`errorType: "max_retries_exceeded"`, `attempts: 2`; in general, for
`maxRetries ≥ 1`, an always-throwing operation fails after exactly
`maxRetries` invocations sleeping `baseDelay × 2^(n−1)` before retry
attempt `n+1`, a first success at attempt `k` resolves with attempt
count `k`, and the defaults are 3 attempts and 1000 ms. -/
theorem retryOperation_spec :
    (∀ (op : Nat → Except String JsValue) (e : Nat → String),
      (∀ n, op n = Except.error (e n)) →
      ErrorHandlers.retryOperation op 2 ErrorHandlers.defaultBaseDelay =
        some ⟨⟨false, none, some "max_retries_exceeded", some (e 2), 2⟩, 2,
          [ErrorHandlers.defaultBaseDelay]⟩) ∧
    (∀ (op : Nat → Except String JsValue) (e : Nat → String) (maxR base : Nat),
      1 ≤ maxR → (∀ n, op n = Except.error (e n)) →
      ErrorHandlers.retryOperation op maxR base =
        some ⟨⟨false, none, some "max_retries_exceeded", some (e maxR), maxR⟩, maxR,
          (List.range (maxR - 1)).map (fun n => base * 2 ^ n)⟩) ∧
    (∀ (op : Nat → Except String JsValue) (base maxR k : Nat) (v : JsValue),
      1 ≤ k → k ≤ maxR →
      (∀ i, i < k → ∃ er, op i = Except.error er) → op k = Except.ok v →
      ErrorHandlers.retryOperation op maxR base =
        some ⟨⟨true, some v, none, none, k⟩, k,
          (List.range (k - 1)).map (fun n => base * 2 ^ n)⟩) ∧
    ErrorHandlers.defaultMaxRetries = 3 ∧ ErrorHandlers.defaultBaseDelay = 1000 := by
  have hgen : ∀ (op : Nat → Except String JsValue) (e : Nat → String) (maxR base : Nat),
      1 ≤ maxR → (∀ n, op n = Except.error (e n)) →
      ErrorHandlers.retryOperation op maxR base =
        some ⟨⟨false, none, some "max_retries_exceeded", some (e maxR), maxR⟩, maxR,
          (List.range (maxR - 1)).map (fun n => base * 2 ^ n)⟩ := by
    intro op e maxR base hmax hop
    unfold ErrorHandlers.retryOperation
    rw [if_neg (by omega)]
    rw [retryAux_allFail op e hop base maxR (maxR - 1) 1 le_rfl hmax rfl]
    rw [List.range_eq_range']
    simp only [Option.some.injEq, ErrorHandlers.RetryTrace.mk.injEq]
    exact ⟨by trivial, by omega, by simp⟩
  refine ⟨?_, hgen, ?_, rfl, rfl⟩
  · intro op e hop
    rw [hgen op e 2 ErrorHandlers.defaultBaseDelay (by omega) hop]
    rw [show List.range 1 = [0] from rfl]
    norm_num
  · intro op base maxR k v hk1 hkm hops hsucc
    unfold ErrorHandlers.retryOperation
    rw [if_neg (by omega)]
    rw [retryAux_success op base maxR k v hkm hops hsucc (k - 1) 1 le_rfl hk1 rfl]
    rw [List.range_eq_range']
    simp only [Option.some.injEq, ErrorHandlers.RetryTrace.mk.injEq]
    exact ⟨by trivial, by omega, by simp⟩

/-- Claim C8, witness: the always-throwing operation under
`maxRetries = 2`, and a second-attempt success under the defaults. -/
theorem retryOperation_spec_witness :
    ErrorHandlers.retryOperation (fun _ => Except.error "boom") 2
        ErrorHandlers.defaultBaseDelay =
      some ⟨⟨false, none, some "max_retries_exceeded", some "boom", 2⟩, 2,
        [ErrorHandlers.defaultBaseDelay]⟩ :=
  retryOperation_spec.1 (fun _ => Except.error "boom") (fun _ => "boom")
    (fun _ => rfl)

/-- Claim C9: `getCacheStats` reports `hitRate = hits / (hits + misses)`
guarded to 0 when no lookups have occurred (never NaN); and starting
from an empty cache with zero counters, two `optimizeDirectoryScanning`
calls on the same path report `cached: false` then `cached: true`,
leaving `hits = 1`, `misses = 1` and hit rate `0.5`. -/
theorem getCacheStats_hitRate_spec :
    (∀ st : FileHelpers.CacheState,
      (FileHelpers.getCacheStats st).hits = st.hits ∧
      (FileHelpers.getCacheStats st).misses = st.misses ∧
      (FileHelpers.getCacheStats st).size = st.size ∧
      (st.hits + st.misses = 0 → (FileHelpers.getCacheStats st).hitRate = 0) ∧
      (st.hits + st.misses ≠ 0 →
        (FileHelpers.getCacheStats st).hitRate =
          (st.hits : Rat) / ((st.hits : Rat) + (st.misses : Rat)))) ∧
    (∀ (fsys : FileHelpers.DirTree) (p : String),
      (FileHelpers.optimizeDirectoryScanning fsys ⟨[], 0, 0, 0⟩ p).1.cached = false ∧
      (FileHelpers.optimizeDirectoryScanning fsys
        (FileHelpers.optimizeDirectoryScanning fsys ⟨[], 0, 0, 0⟩ p).2 p).1.cached = true ∧
      (FileHelpers.optimizeDirectoryScanning fsys
        (FileHelpers.optimizeDirectoryScanning fsys ⟨[], 0, 0, 0⟩ p).2 p).2.hits = 1 ∧
      (FileHelpers.optimizeDirectoryScanning fsys
        (FileHelpers.optimizeDirectoryScanning fsys ⟨[], 0, 0, 0⟩ p).2 p).2.misses = 1 ∧
      (FileHelpers.getCacheStats
        (FileHelpers.optimizeDirectoryScanning fsys
          (FileHelpers.optimizeDirectoryScanning fsys ⟨[], 0, 0, 0⟩ p).2 p).2).hitRate
        = 1 / 2) := by
  constructor
  · intro st
    refine ⟨rfl, rfl, rfl, ?_, ?_⟩
    · intro h
      simp [FileHelpers.getCacheStats, h]
    · intro h
      simp [FileHelpers.getCacheStats, h]
      try norm_cast
  · intro fsys p
    have h1 : FileHelpers.optimizeDirectoryScanning fsys ⟨[], 0, 0, 0⟩ p =
        (⟨true, false, true⟩,
          ⟨[("scan-" ++ p,
             FileHelpers.scanDirectory fsys true FileHelpers.MANIFEST_EXTENSIONS 10 p 0)],
           0, 1, 1⟩) := by
      simp [FileHelpers.optimizeDirectoryScanning, FileHelpers.cacheGet,
        FileHelpers.cacheSet]
    rw [h1]
    have h2 : FileHelpers.optimizeDirectoryScanning fsys
        ⟨[("scan-" ++ p,
           FileHelpers.scanDirectory fsys true FileHelpers.MANIFEST_EXTENSIONS 10 p 0)],
         0, 1, 1⟩ p =
        (⟨true, true, true⟩,
          ⟨[("scan-" ++ p,
             FileHelpers.scanDirectory fsys true FileHelpers.MANIFEST_EXTENSIONS 10 p 0)],
           1, 1, 1⟩) := by
      simp [FileHelpers.optimizeDirectoryScanning, FileHelpers.cacheGet]
    rw [h2]
    refine ⟨rfl, rfl, rfl, rfl, ?_⟩
    norm_num [FileHelpers.getCacheStats]

/-- Claim C9, witness: the guarded-rate characterization applied to the
state after one hit and one miss. -/
theorem getCacheStats_hitRate_spec_witness :
    (FileHelpers.getCacheStats ⟨[], 1, 1, 1⟩).hitRate =
      ((1 : Nat) : Rat) / (((1 : Nat) : Rat) + ((1 : Nat) : Rat)) :=
  (getCacheStats_hitRate_spec.1 ⟨[], 1, 1, 1⟩).2.2.2.2 (by norm_num)

/-- Hitting the depth ceiling returns the successful empty result with
the flag set. -/
theorem scanDirectory_ceiling (fsys : FileHelpers.DirTree) (rec : Bool)
    (exts : List String) (maxD : Nat) (p : String) (curD : Nat)
    (h : maxD ≤ curD) :
    FileHelpers.scanDirectory fsys rec exts maxD p curD =
      .mk p [] [] [] 0 true true := by
  unfold FileHelpers.scanDirectory
  rw [if_pos h]

/-- The flag accumulated by the entry loop is the disjunction, over the
directory entries, of the recursive subscan flags. -/
theorem scanEntries_flag (fsys : FileHelpers.DirTree) (rec : Bool)
    (exts : List String) (maxD : Nat) (p : String) (curD : Nat)
    (h : curD < maxD) (es : List FileHelpers.FSEntry) :
    (FileHelpers.scanEntries fsys rec exts maxD p curD es).flag =
      es.any (fun e => e.isDir && (rec &&
        (FileHelpers.scanDirectory fsys rec exts maxD
          (FileHelpers.pJoin p e.name) (curD + 1)).maxDepthReached)) := by
  induction es with
  | nil => simp [FileHelpers.scanEntries]
  | cons entry rest ih =>
    unfold FileHelpers.scanEntries
    cases hdir : entry.isDir with
    | false =>
      by_cases hc : asciiLower (pathExtname entry.name) ∈ exts <;>
        simp [hdir, hc, ih]
    | true =>
      cases hr : rec with
      | false =>
        subst hr
        simp [hdir, ih, h]
      | true =>
        subst hr
        simp [hdir, ih, h]

/-- Claim C10: `scanDirectory` terminates on every directory tree,
including unboundedly deep ones — it is a total function of the tree —
because recursion into a subdirectory only proceeds while
`currentDepth < maxDepth` and each recursive call increments
`currentDepth`.  At or beyond the ceiling it returns a successful
empty result with `maxDepthReached = true`, and the flag of any
invocation is set exactly when the ceiling was hit at or below it:
when the depth budget is already exhausted, or the scan is recursive
and a chain of nested directories as long as the remaining budget
hangs below the path. -/
theorem scanDirectory_depth_spec :
    (∀ (fsys : FileHelpers.DirTree) (rec : Bool) (exts : List String)
        (maxD : Nat) (p : String) (curD : Nat), maxD ≤ curD →
      FileHelpers.scanDirectory fsys rec exts maxD p curD =
        .mk p [] [] [] 0 true true) ∧
    (∀ (fsys : FileHelpers.DirTree) (rec : Bool) (exts : List String)
        (maxD : Nat) (curD : Nat) (p : String),
      (FileHelpers.scanDirectory fsys rec exts maxD p curD).maxDepthReached =
        (decide (maxD ≤ curD) ||
          (rec && FileHelpers.hasDirChain fsys p (maxD - curD)))) := by
  refine ⟨scanDirectory_ceiling, ?_⟩
  intro fsys rec exts maxD
  have main : ∀ d curD p, maxD - curD = d →
      (FileHelpers.scanDirectory fsys rec exts maxD p curD).maxDepthReached =
        (decide (maxD ≤ curD) ||
          (rec && FileHelpers.hasDirChain fsys p (maxD - curD))) := by
    intro d
    induction d with
    | zero =>
      intro curD p hd
      have h : maxD ≤ curD := by omega
      rw [scanDirectory_ceiling fsys rec exts maxD p curD h]
      simp [FileHelpers.ScanResult.maxDepthReached, h]
    | succ d ih =>
      intro curD p hd
      have h : curD < maxD := by omega
      unfold FileHelpers.scanDirectory
      rw [if_neg (by omega)]
      simp only [FileHelpers.ScanResult.maxDepthReached]
      rw [scanEntries_flag fsys rec exts maxD p curD h]
      have hrw : ∀ e : FileHelpers.FSEntry,
          (e.isDir && (rec &&
            (FileHelpers.scanDirectory fsys rec exts maxD
              (FileHelpers.pJoin p e.name) (curD + 1)).maxDepthReached)) =
          (rec && (e.isDir &&
            FileHelpers.hasDirChain fsys (FileHelpers.pJoin p e.name) d)) := by
        intro e
        rw [ih (curD + 1) (FileHelpers.pJoin p e.name) (by omega)]
        have hd' : maxD - (curD + 1) = d := by omega
        rw [hd']
        cases d with
        | zero =>
          have : maxD ≤ curD + 1 := by omega
          simp [this, FileHelpers.hasDirChain]
          cases e.isDir <;> cases rec <;> simp
        | succ n =>
          have : ¬ maxD ≤ curD + 1 := by omega
          simp [this]
          cases e.isDir <;> cases rec <;> simp
      simp only [hrw]
      have hneg : decide (maxD ≤ curD) = false := by simp; omega
      rw [hneg]
      rw [show maxD - curD = d + 1 from hd]
      cases rec with
      | false => simp
      | true => simp [FileHelpers.hasDirChain]
  intro rec2 p
  exact main (maxD - rec2) rec2 p rfl

/-- Claim C10, witness: the ceiling branch evaluated with the budget
already exhausted, and the flag characterization on a concrete
two-level tree scanned with `maxDepth = 1`. -/
theorem scanDirectory_depth_spec_witness :
    FileHelpers.scanDirectory (fun _ => [⟨"d", true⟩]) true
        FileHelpers.MANIFEST_EXTENSIONS 2 "root" 2 =
      .mk "root" [] [] [] 0 true true :=
  scanDirectory_depth_spec.1 (fun _ => [⟨"d", true⟩]) true
    FileHelpers.MANIFEST_EXTENSIONS 2 "root" 2 (by norm_num)

/-- Projection reduction for scan-result literals. -/
theorem scanResult_files_mk (p : String) (f d : List String)
    (s : List FileHelpers.ScanResult) (t : Nat) (m su : Bool) :
    (FileHelpers.ScanResult.mk p f d s t m su).files = f := rfl

/-- Projection reduction for scan-result literals. -/
theorem scanResult_subs_mk (p : String) (f d : List String)
    (s : List FileHelpers.ScanResult) (t : Nat) (m su : Bool) :
    (FileHelpers.ScanResult.mk p f d s t m su).subdirectories = s := rfl

/-- Mapping the `files` projection over pointwise-known scans. -/
theorem map_files_of_eq (F : String → FileHelpers.ScanResult)
    (G : String → List String) (h : ∀ c, (F c).files = G c) :
    ∀ l : List String, (l.map F).map (fun sd => sd.files) = l.map G := by
  intro l
  induction l with
  | nil => rfl
  | cons x xs ih => simp [h, ih]

/-- Mapping pointwise-equal functions over a list gives equal lists. -/
theorem map_eq_of_eq {α β : Type} (f g : α → β) (h : ∀ a, f a = g a) :
    ∀ l : List α, l.map f = l.map g := by
  intro l
  induction l with
  | nil => rfl
  | cons x xs ih => simp [h, ih]

/-- The files collected by the entry loop are exactly the
manifest-extensioned files, in listing order. -/
theorem scanEntries_files (fsys : FileHelpers.DirTree) (rec : Bool)
    (exts : List String) (maxD : Nat) (p : String) (curD : Nat)
    (es : List FileHelpers.FSEntry) :
    (FileHelpers.scanEntries fsys rec exts maxD p curD es).files =
      es.filterMap (fun e =>
        if !e.isDir && exts.contains (asciiLower (pathExtname e.name)) then
          some (FileHelpers.pJoin p e.name)
        else none) := by
  induction es with
  | nil => simp [FileHelpers.scanEntries]
  | cons entry rest ih =>
    unfold FileHelpers.scanEntries
    cases hdir : entry.isDir with
    | false =>
      by_cases hc : asciiLower (pathExtname entry.name) ∈ exts <;>
        simp [hdir, hc, ih]
    | true =>
      by_cases hg : rec = true ∧ curD < maxD
      · obtain ⟨hrt, hlt⟩ := hg
        subst hrt
        simp [hdir, hlt, ih]
      · simp [hdir, hg, ih]

/-- The subdirectory results collected by a recursive entry loop below
the ceiling are the scans of the subdirectories at the next depth, in
listing order. -/
theorem scanEntries_subs (fsys : FileHelpers.DirTree) (exts : List String)
    (maxD : Nat) (p : String) (curD : Nat) (h : curD < maxD)
    (es : List FileHelpers.FSEntry) :
    (FileHelpers.scanEntries fsys true exts maxD p curD es).subs =
      (es.filterMap (fun e => if e.isDir then some e.name else none)).map
        (fun c => FileHelpers.scanDirectory fsys true exts maxD
          (FileHelpers.pJoin p c) (curD + 1)) := by
  induction es with
  | nil => simp [FileHelpers.scanEntries]
  | cons entry rest ih =>
    unfold FileHelpers.scanEntries
    cases hdir : entry.isDir with
    | false =>
      by_cases hc : asciiLower (pathExtname entry.name) ∈ exts <;>
        simp [hdir, hc, ih]
    | true => simp [hdir, h, ih]

/-- Claim C4: with `recursive: true` (and the scan's default
`maxDepth` of 10), `discoverManifestFiles` returns exactly the
manifest-extensioned files of the root directory followed by those of
its immediate subdirectories; on the example tree whose only manifest
file sits two directory levels deep, the discovery returns no files
even though the underlying recursive scan records that file inside the
nested `subdirectories` results. -/
theorem discoverManifestFiles_depth_spec :
    (∀ (fsys : FileHelpers.DirTree) (p : String) (exts : List String),
      (FileHelpers.discoverManifestFiles fsys p true none exts).files =
        FileHelpers.manifestFilesIn fsys exts p ++
          ((FileHelpers.dirsOf fsys p).map
            (fun c => FileHelpers.manifestFilesIn fsys exts
              (FileHelpers.pJoin p c))).flatten) ∧
    (FileHelpers.discoverManifestFiles FileHelpers.exampleTree "root" true none
        FileHelpers.MANIFEST_EXTENSIONS).files = [] ∧
    ((FileHelpers.scanDirectory FileHelpers.exampleTree true
        FileHelpers.MANIFEST_EXTENSIONS 10 "root" 0).subdirectories.map
      (fun s => s.subdirectories.map (fun s2 => s2.files))) =
      [[["root/d1/d2/m.json"]]] := by
  have hroot : ∀ (fsys : FileHelpers.DirTree) (p : String) (exts : List String),
      (FileHelpers.discoverManifestFiles fsys p true none exts).files =
        FileHelpers.manifestFilesIn fsys exts p ++
          ((FileHelpers.dirsOf fsys p).map
            (fun c => FileHelpers.manifestFilesIn fsys exts
              (FileHelpers.pJoin p c))).flatten := by
    intro fsys p exts
    have hchild : ∀ c : String,
        (FileHelpers.scanDirectory fsys true exts 10 (FileHelpers.pJoin p c) 1).files =
          FileHelpers.manifestFilesIn fsys exts (FileHelpers.pJoin p c) := by
      intro c
      unfold FileHelpers.scanDirectory
      rw [if_neg (by norm_num)]
      simp only [scanResult_files_mk]
      rw [scanEntries_files]
      simp [FileHelpers.manifestFilesIn]
    unfold FileHelpers.discoverManifestFiles
    unfold FileHelpers.scanDirectory
    rw [if_neg (by norm_num)]
    simp only [scanResult_files_mk, scanResult_subs_mk]
    rw [scanEntries_files, scanEntries_subs fsys exts 10 p 0 (by norm_num)]
    rw [map_files_of_eq
      (fun c => FileHelpers.scanDirectory fsys true exts 10
        (FileHelpers.pJoin p c) (0 + 1))
      (fun c => FileHelpers.manifestFilesIn fsys exts (FileHelpers.pJoin p c))
      (fun c => hchild c)]
    simp [FileHelpers.manifestFilesIn, FileHelpers.dirsOf]
  refine ⟨hroot, ?_, ?_⟩
  · rw [hroot]
    simp +decide [FileHelpers.manifestFilesIn, FileHelpers.dirsOf,
      FileHelpers.exampleTree, FileHelpers.pJoin]
  · have hleaf : (FileHelpers.scanDirectory FileHelpers.exampleTree true
        FileHelpers.MANIFEST_EXTENSIONS 10 "root/d1/d2" 2).files =
        ["root/d1/d2/m.json"] := by
      unfold FileHelpers.scanDirectory
      rw [if_neg (by norm_num)]
      simp only [scanResult_files_mk]
      rw [scanEntries_files]
      rw [show FileHelpers.exampleTree "root/d1/d2" = [⟨"m.json", false⟩] from rfl]
      simp +decide [FileHelpers.pJoin]
    have hmid : (FileHelpers.scanDirectory FileHelpers.exampleTree true
        FileHelpers.MANIFEST_EXTENSIONS 10 "root/d1" 1).subdirectories.map
          (fun s2 => s2.files) = [["root/d1/d2/m.json"]] := by
      unfold FileHelpers.scanDirectory
      rw [if_neg (by norm_num)]
      simp only [scanResult_subs_mk]
      rw [scanEntries_subs FileHelpers.exampleTree FileHelpers.MANIFEST_EXTENSIONS
        10 "root/d1" 1 (by norm_num)]
      rw [show FileHelpers.exampleTree "root/d1" = [⟨"d2", true⟩] from rfl]
      simp only [List.filterMap, List.map]
      rw [show FileHelpers.pJoin "root/d1" "d2" = "root/d1/d2" from rfl]
      simp [hleaf]
    unfold FileHelpers.scanDirectory
    rw [if_neg (by norm_num)]
    simp only [scanResult_subs_mk]
    rw [scanEntries_subs FileHelpers.exampleTree FileHelpers.MANIFEST_EXTENSIONS
      10 "root" 0 (by norm_num)]
    rw [show FileHelpers.exampleTree "root" = [⟨"d1", true⟩] from rfl]
    simp only [List.filterMap, List.map]
    rw [show FileHelpers.pJoin "root" "d1" = "root/d1" from rfl]
    simp [hmid]

section YamlLemmas

open YamlSupport

/-- Taking while a predicate holds stops exactly at the end of a
satisfying prefix. -/
theorem takeWhile_append_all (p : Char → Bool) :
    ∀ tok rest : List Char, tok.all p = true → headNotSat p rest →
      (tok ++ rest).takeWhile p = tok := by
  intro tok
  induction tok with
  | nil =>
    intro rest _ hr
    cases rest with
    | nil => rfl
    | cons c t =>
      simp only [List.nil_append, List.takeWhile]
      simp [headNotSat] at hr
      simp [hr]
  | cons c t ih =>
    intro rest hall hr
    simp only [List.all_cons, Bool.and_eq_true] at hall
    simp only [List.cons_append, List.takeWhile, hall.1]
    simp [ih rest hall.2 hr]

/-- Dropping the length of a prefix of an append gives the suffix. -/
theorem drop_append_len : ∀ tok rest : List Char,
    (tok ++ rest).drop tok.length = rest := by
  intro tok
  induction tok with
  | nil => intro rest; rfl
  | cons c t ih => intro rest; simp [ih rest]

/-- A good rest never starts with a plain-scalar character. -/
theorem goodRest_plain {rest : List Char} (h : goodRest rest) :
    headNotSat isPlainChar rest := by
  cases rest with
  | nil => trivial
  | cons c t =>
    rcases h with h | h | h <;> subst h <;>
      simp only [headNotSat, quoteFree] <;> decide

/-- A good rest never starts with a letter. -/
theorem goodRest_alpha {rest : List Char} (h : goodRest rest) :
    headNotSat (fun c => c.isAlpha) rest := by
  cases rest with
  | nil => trivial
  | cons c t =>
    rcases h with h | h | h <;> subst h <;>
      simp only [headNotSat, quoteFree] <;> decide

/-- A good rest never starts with a digit. -/
theorem goodRest_digit {rest : List Char} (h : goodRest rest) :
    headNotSat (fun c => c.isDigit) rest := by
  cases rest with
  | nil => trivial
  | cons c t =>
    rcases h with h | h | h <;> subst h <;>
      simp only [headNotSat, quoteFree] <;> decide

/-- A good rest never starts with a quote. -/
theorem goodRest_quote {rest : List Char} (h : goodRest rest) :
    quoteFree rest := by
  cases rest with
  | nil => trivial
  | cons c t =>
    rcases h with h | h | h <;> subst h <;>
      simp only [headNotSat, quoteFree] <;> decide

/-- Recursion step of `parseSQ` for an ordinary character. -/
theorem parseSQ_other (acc X : List Char) (c : Char) (hc : c ≠ '\'') :
    parseSQ acc (c :: X) = parseSQ (c :: acc) X := by
  conv_lhs => unfold parseSQ
  rw [if_neg hc]

/-- Closing a single-quoted scalar at the end of input. -/
theorem parseSQ_close_nil (acc : List Char) :
    parseSQ acc ['\''] = some (String.mk acc.reverse, []) := rfl

/-- Closing a single-quoted scalar before a non-quote character. -/
theorem parseSQ_close (acc : List Char) (d : Char) (t : List Char) (hd : d ≠ '\'') :
    parseSQ acc ('\'' :: d :: t) = some (String.mk acc.reverse, d :: t) := by
  show (if d = '\'' then parseSQ ('\'' :: acc) t
    else some (String.mk acc.reverse, d :: t)) = _
  rw [if_neg hd]

/-- Escape step of `sqEscape` for an ordinary character. -/
theorem sqEscape_other (c : Char) (t : List Char) (hc : c ≠ '\'') :
    sqEscape (c :: t) = c :: sqEscape t := by
  conv_lhs => unfold sqEscape
  rw [if_neg hc]

/-- The single-quoted body parser inverts the escape, given that the
input continues with the closing quote and then anything not starting
with another quote. -/
theorem parseSQ_round : ∀ s acc rest : List Char, quoteFree rest →
    parseSQ acc (sqEscape s ++ '\'' :: rest) =
      some (String.mk (acc.reverse ++ s), rest) := by
  intro s
  induction s with
  | nil =>
    intro acc rest hq
    cases rest with
    | nil =>
      rw [show sqEscape [] ++ '\'' :: ([] : List Char) = ['\''] from rfl,
        parseSQ_close_nil]
      simp
    | cons d t =>
      simp only [quoteFree] at hq
      rw [show sqEscape [] ++ '\'' :: d :: t = '\'' :: d :: t from rfl,
        parseSQ_close acc d t hq]
      simp
  | cons c t ih =>
    intro acc rest hq
    by_cases hc : c = '\''
    · subst hc
      rw [show sqEscape ('\'' :: t) = '\'' :: '\'' :: sqEscape t from rfl]
      rw [show ('\'' :: '\'' :: sqEscape t) ++ '\'' :: rest =
        '\'' :: '\'' :: (sqEscape t ++ '\'' :: rest) from rfl]
      rw [show parseSQ acc ('\'' :: '\'' :: (sqEscape t ++ '\'' :: rest)) =
        parseSQ ('\'' :: acc) (sqEscape t ++ '\'' :: rest) from rfl]
      rw [ih ('\'' :: acc) rest hq]
      simp
    · rw [sqEscape_other c t hc]
      rw [show (c :: sqEscape t) ++ '\'' :: rest =
        c :: (sqEscape t ++ '\'' :: rest) from rfl]
      rw [parseSQ_other acc (sqEscape t ++ '\'' :: rest) c hc]
      rw [ih (c :: acc) rest hq]
      simp

/-- Recursion step of `parseDQ` for an ordinary character. -/
theorem parseDQ_other (acc X : List Char) (c : Char) (h1 : c ≠ '"') (h2 : c ≠ '\\') :
    parseDQ acc (c :: X) = parseDQ (c :: acc) X := by
  conv_lhs => unfold parseDQ
  rw [if_neg h1, if_neg h2]

/-- Recursion step of `parseDQ` across an escape pair. -/
theorem parseDQ_esc (acc X : List Char) (d : Char)
    (hd : (d = '"' || d = '\\') = true) :
    parseDQ acc ('\\' :: d :: X) = parseDQ (d :: acc) X := by
  show (if d = '"' || d = '\\' then parseDQ (d :: acc) X else none) = _
  rw [if_pos hd]

/-- Escape step of `dqEscape` for an escaped character. -/
theorem dqEscape_esc (c : Char) (t : List Char)
    (hc : (c = '"' || c = '\\') = true) :
    dqEscape (c :: t) = '\\' :: c :: dqEscape t := by
  conv_lhs => unfold dqEscape
  rw [if_pos hc]

/-- Escape step of `dqEscape` for an ordinary character. -/
theorem dqEscape_other (c : Char) (t : List Char)
    (hc : (c = '"' || c = '\\') = false) :
    dqEscape (c :: t) = c :: dqEscape t := by
  conv_lhs => unfold dqEscape
  rw [hc]
  simp

/-- The double-quoted body parser inverts the JSON escape. -/
theorem parseDQ_round : ∀ s acc rest : List Char,
    parseDQ acc (dqEscape s ++ '"' :: rest) =
      some (String.mk (acc.reverse ++ s), rest) := by
  intro s
  induction s with
  | nil =>
    intro acc rest
    rw [show dqEscape [] ++ '"' :: rest = '"' :: rest from rfl]
    have hclose : parseDQ acc ('"' :: rest) = some (String.mk acc.reverse, rest) := by
      conv_lhs => unfold parseDQ
      rw [if_pos rfl]
    rw [hclose]
    simp
  | cons c t ih =>
    intro acc rest
    by_cases hc : (c = '"' || c = '\\') = true
    · rw [dqEscape_esc c t hc]
      rw [show ('\\' :: c :: dqEscape t) ++ '"' :: rest =
        '\\' :: c :: (dqEscape t ++ '"' :: rest) from rfl]
      rw [parseDQ_esc acc (dqEscape t ++ '"' :: rest) c hc]
      rw [ih (c :: acc) rest]
      simp
    · have hcf : (c = '"' || c = '\\') = false := by
        simpa using hc
      have h1 : c ≠ '"' := by
        intro h
        rw [h] at hcf
        simp at hcf
      have h2 : c ≠ '\\' := by
        intro h
        rw [h] at hcf
        simp at hcf
      rw [dqEscape_other c t hcf]
      rw [show (c :: dqEscape t) ++ '"' :: rest =
        c :: (dqEscape t ++ '"' :: rest) from rfl]
      rw [parseDQ_other acc (dqEscape t ++ '"' :: rest) c h1 h2]
      rw [ih (c :: acc) rest]
      simp

/-- A digit character is a plain-scalar character and none of the
structural characters. -/
theorem digit_facts (c : Char) (h : c.isDigit = true) :
    isPlainChar c = true ∧ c ≠ '-' ∧ c ≠ '[' ∧ c ≠ ']' ∧ c ≠ '\x7b' ∧
      c ≠ '\x7d' ∧ c ≠ ',' ∧ c ≠ '\'' ∧ c ≠ '"' ∧ c ≠ '\\' ∧ c ≠ ':' := by
  refine ⟨?_, ?_, ?_, ?_, ?_, ?_, ?_, ?_, ?_, ?_, ?_⟩
  · simp [isPlainChar, h]
  all_goals intro he
  all_goals rw [he] at h
  all_goals exact absurd h (by decide)

/-- A plain-scalar character is none of the structural characters. -/
theorem plain_facts (c : Char) (h : isPlainChar c = true) :
    c ≠ '[' ∧ c ≠ ']' ∧ c ≠ '\x7b' ∧ c ≠ '\x7d' ∧ c ≠ ',' ∧ c ≠ '\'' ∧
      c ≠ ':' ∧ c ≠ ' ' ∧ c ≠ '"' := by
  refine ⟨?_, ?_, ?_, ?_, ?_, ?_, ?_, ?_, ?_⟩
  all_goals intro he
  all_goals rw [he] at h
  all_goals exact absurd h (by decide)

/-- Properties of the digit character of `r < 10`. -/
theorem digitChar_props (r : Nat) (hr : r < 10) :
    (digitChar r).isDigit = true ∧ (digitChar r).toNat - 48 = r := by
  interval_cases r <;> exact ⟨by decide, by decide⟩

/-- Appending a digit multiplies the accumulated value by ten. -/
theorem digitsVal_append (ds : List Char) (c : Char) :
    digitsVal (ds ++ [c]) = digitsVal ds * 10 + (c.toNat - 48) := by
  simp [digitsVal, List.foldl_append]

/-- The decimal digits of `n` are digits, nonempty, and evaluate back
to `n`. -/
theorem natDigitsAux_spec : ∀ fuel n : Nat, n < fuel →
    (natDigitsAux fuel n).all (fun c => c.isDigit) = true ∧
    natDigitsAux fuel n ≠ [] ∧
    digitsVal (natDigitsAux fuel n) = n := by
  intro fuel
  induction fuel with
  | zero => intro n hn; omega
  | succ f ih =>
    intro n hn
    by_cases h10 : n < 10
    · unfold natDigitsAux
      rw [if_pos h10]
      obtain ⟨hd, hv⟩ := digitChar_props n h10
      refine ⟨by simp [hd], by simp, ?_⟩
      simp [digitsVal, hv]
    · unfold natDigitsAux
      rw [if_neg h10]
      have hdiv : n / 10 < f := by
        have := Nat.div_lt_self (by omega : 0 < n) (by norm_num : 1 < 10)
        omega
      obtain ⟨ha, hne, hv⟩ := ih (n / 10) hdiv
      obtain ⟨hd2, hv2⟩ := digitChar_props (n % 10) (Nat.mod_lt _ (by norm_num))
      refine ⟨?_, by simp, ?_⟩
      · simp only [List.all_append, ha, Bool.true_and, List.all_cons, hd2,
          List.all_nil, Bool.and_self]
      · rw [digitsVal_append, hv, hv2]
        omega

/-- Specialisation to `natDigits`. -/
theorem natDigits_spec (n : Nat) :
    (natDigits n).all (fun c => c.isDigit) = true ∧
    natDigits n ≠ [] ∧ digitsVal (natDigits n) = n :=
  natDigitsAux_spec (n + 1) n (Nat.lt_succ_self n)

/-- The digits of `n` start with a digit character. -/
theorem natDigits_shape (n : Nat) :
    ∃ c t, natDigits n = c :: t ∧ c.isDigit = true := by
  obtain ⟨ha, hne, _⟩ := natDigits_spec n
  cases hd : natDigits n with
  | nil => exact absurd hd hne
  | cons c t =>
    rw [hd] at ha
    simp only [List.all_cons, Bool.and_eq_true] at ha
    exact ⟨c, t, rfl, ha.1⟩

/-- The printed integer is a nonempty all-plain token whose head is a
minus sign or a digit. -/
theorem intRepr_props (n : Int) :
    (intRepr n).all isPlainChar = true ∧
    ∃ c t, intRepr n = c :: t ∧ (c = '-' ∨ c.isDigit = true) := by
  unfold intRepr
  by_cases hn : n < 0
  · rw [if_pos hn]
    obtain ⟨ha, hne, _⟩ := natDigits_spec (- n).toNat
    constructor
    · simp only [List.all_cons, Bool.and_eq_true]
      refine ⟨by decide, ?_⟩
      refine List.all_eq_true.mpr ?_
      intro c hc
      have hcd := List.all_eq_true.mp ha c hc
      exact (digit_facts c (by simpa using hcd)).1
    · exact ⟨'-', natDigits (- n).toNat, rfl, Or.inl rfl⟩
  · rw [if_neg hn]
    obtain ⟨ha, hne, _⟩ := natDigits_spec n.toNat
    obtain ⟨c, t, hct, hcd⟩ := natDigits_shape n.toNat
    constructor
    · refine List.all_eq_true.mpr ?_
      intro d hd
      have hdd := List.all_eq_true.mp ha d hd
      exact (digit_facts d (by simpa using hdd)).1
    · exact ⟨c, t, hct, Or.inr hcd⟩

/-- The implicit resolver reads a printed integer back as that
integer. -/
theorem resolveScalar_intRepr (n : Int) :
    resolveScalar (intRepr n) = .num n := by
  have hint : isIntTok (intRepr n) = true ∧ intTokVal (intRepr n) = n := by
    unfold intRepr
    by_cases hn : n < 0
    · rw [if_pos hn]
      obtain ⟨ha, hne, hv⟩ := natDigits_spec (- n).toNat
      constructor
      · show (!(natDigits (- n).toNat).isEmpty &&
          (natDigits (- n).toNat).all fun d => d.isDigit) = true
        simp [hne, ha]
      · show - (digitsVal (natDigits (- n).toNat) : Int) = n
        rw [hv]
        omega
    · rw [if_neg hn]
      obtain ⟨c, t, hct, hcd⟩ := natDigits_shape n.toNat
      obtain ⟨ha, hne, hv⟩ := natDigits_spec n.toNat
      have hcm : c ≠ '-' := (digit_facts c hcd).2.1
      constructor
      · rw [hct]
        show (if c = '-' then !t.isEmpty && t.all (fun d => d.isDigit)
          else (c :: t).all fun d => d.isDigit) = true
        rw [if_neg hcm, ← hct]
        exact ha
      · rw [hct]
        show (if c = '-' then - (digitsVal t : Int)
          else (digitsVal (c :: t) : Int)) = n
        rw [if_neg hcm, ← hct, hv]
        omega
  unfold resolveScalar
  rw [if_pos hint.1, hint.2]

/-- A plain scalar that resolves to a string resolves to exactly
itself. -/
theorem resolvesToSelf_eq (cs : List Char) (h : resolvesToSelf cs = true) :
    resolveScalar cs = .str (String.mk cs) := by
  unfold resolvesToSelf at h
  unfold resolveScalar at h ⊢
  by_cases hi : isIntTok cs = true
  · rw [if_pos hi] at h
    simp at h
  · rw [if_neg hi] at h ⊢
    by_cases hdt : isDateTok cs = true
    · rw [if_pos hdt] at h
      simp at h
    · rw [if_neg hdt] at h ⊢
      by_cases h1 : String.mk cs = "null" ∨ String.mk cs = "Null" ∨
          String.mk cs = "NULL"
      · rw [if_pos h1] at h
        simp at h
      · rw [if_neg h1] at h ⊢
        by_cases h2 : String.mk cs = "true" ∨ String.mk cs = "True" ∨
            String.mk cs = "TRUE"
        · rw [if_pos h2] at h
          simp at h
        · rw [if_neg h2] at h ⊢
          by_cases h3 : String.mk cs = "false" ∨ String.mk cs = "False" ∨
              String.mk cs = "FALSE"
          · rw [if_pos h3] at h
            simp at h
          · rw [if_neg h3]

/-- The head of a printed key is never a closing brace. -/
theorem yamlKeyTok_shape (k : String) :
    ∃ c t, yamlKeyTok k = c :: t ∧ c ≠ '\x7d' := by
  unfold yamlKeyTok
  by_cases hp : (plainOk k.toList) = true
  · rw [if_pos hp]
    unfold plainOk at hp
    simp only [Bool.and_eq_true] at hp
    cases hk : k.toList with
    | nil => rw [hk] at hp; simp at hp
    | cons c t =>
      rw [hk] at hp
      have hc : isPlainChar c = true := by
        have := hp.2
        simp [List.all_cons] at this
        exact this.1
      exact ⟨c, t, rfl, (plain_facts c hc).2.2.2.1⟩
  · rw [if_neg hp]
    exact ⟨'\'', sqEscape k.toList ++ ['\''], rfl, by decide⟩

/-- The head of a printed YAML value is never a closing bracket (and
the printed form is nonempty). -/
theorem yamlDumpV_shape (v : YValue) :
    ∃ c t, yamlDumpV v = c :: t ∧ c ≠ ']' := by
  cases v with
  | null => exact ⟨'n', _, rfl, by decide⟩
  | bool b =>
    cases b with
    | false => exact ⟨'f', _, rfl, by decide⟩
    | true => exact ⟨'t', _, rfl, by decide⟩
  | num n =>
    obtain ⟨_, c, t, hct, hc⟩ := intRepr_props n
    refine ⟨c, t, hct, ?_⟩
    rcases hc with hc | hc
    · subst hc; decide
    · exact (digit_facts c hc).2.2.2.1
  | str s =>
    unfold yamlDumpV yamlStrTok
    by_cases hg : (plainOk s.toList && resolvesToSelf s.toList) = true
    · rw [if_pos hg]
      simp only [Bool.and_eq_true] at hg
      have hp := hg.1
      unfold plainOk at hp
      simp only [Bool.and_eq_true] at hp
      cases hk : s.toList with
      | nil => rw [hk] at hp; simp at hp
      | cons c t =>
        rw [hk] at hp
        have hc : isPlainChar c = true := by
          have := hp.2
          simp [List.all_cons] at this
          exact this.1
        exact ⟨c, t, rfl, (plain_facts c hc).2.1⟩
    · rw [if_neg hg]
      exact ⟨'\'', sqEscape s.toList ++ ['\''], rfl, by decide⟩
  | date s => exact ⟨'\'', sqEscape s.toList ++ ['\''], rfl, by decide⟩
  | arr vs =>
    cases vs with
    | nil => exact ⟨'[', [']'], rfl, by decide⟩
    | cons v vs' => exact ⟨'[', _, rfl, by decide⟩
  | obj kvs =>
    cases kvs with
    | nil => exact ⟨'\x7b', ['\x7d'], rfl, by decide⟩
    | cons kv kvs' => exact ⟨'\x7b', _, rfl, by decide⟩

/-- The head of a printed nonempty element list is never `]`. -/
theorem yamlDumpElems_shape (v : YValue) (vs : List YValue) :
    ∃ c t, yamlDumpElems (v :: vs) = c :: t ∧ c ≠ ']' := by
  obtain ⟨c, t, hct, hc⟩ := yamlDumpV_shape v
  cases vs with
  | nil => exact ⟨c, t, hct, hc⟩
  | cons w ws =>
    refine ⟨c, t ++ ',' :: yamlDumpElems (w :: ws), ?_, hc⟩
    rw [show yamlDumpElems (v :: w :: ws) =
      yamlDumpV v ++ ',' :: yamlDumpElems (w :: ws) from rfl, hct]
    rfl

/-- The head of a printed nonempty entry list is never a closing
brace. -/
theorem yamlDumpPairs_shape (kv : String × YValue) (kvs : List (String × YValue)) :
    ∃ c t, yamlDumpPairs (kv :: kvs) = c :: t ∧ c ≠ '\x7d' := by
  obtain ⟨c, t, hct, hc⟩ := yamlKeyTok_shape kv.1
  cases kvs with
  | nil =>
    refine ⟨c, t ++ ':' :: ' ' :: yamlDumpV kv.2, ?_, hc⟩
    rw [show yamlDumpPairs [kv] =
      yamlKeyTok kv.1 ++ ':' :: ' ' :: yamlDumpV kv.2 from ?_, hct]
    · rfl
    · cases kv; rfl
  | cons p ps =>
    refine ⟨c, t ++ ':' :: ' ' :: yamlDumpV kv.2 ++ ',' :: yamlDumpPairs (p :: ps), ?_, hc⟩
    rw [show yamlDumpPairs (kv :: p :: ps) =
      (yamlKeyTok kv.1 ++ ':' :: ' ' :: yamlDumpV kv.2) ++ ',' :: yamlDumpPairs (p :: ps) from ?_, hct]
    · simp
    · cases kv; rfl

/-- Parsing at a plain token followed by a non-plain remainder yields
the resolved scalar. -/
theorem ypValue_plainTok (f : Nat) (tok rest : List Char)
    (hne : tok ≠ []) (hall : tok.all isPlainChar = true)
    (hr : headNotSat isPlainChar rest) :
    ypValue (f + 1) (tok ++ rest) = some (resolveScalar tok, rest) := by
  obtain ⟨c, t, rfl⟩ : ∃ c t, tok = c :: t := by
    cases tok with
    | nil => exact absurd rfl hne
    | cons c t => exact ⟨c, t, rfl⟩
  have hc : isPlainChar c = true := by
    simp only [List.all_cons, Bool.and_eq_true] at hall
    exact hall.1
  obtain ⟨hc1, _, hc3, _, _, hc6, _, _, _⟩ := plain_facts c hc
  have htw : (c :: t ++ rest).takeWhile isPlainChar = c :: t :=
    takeWhile_append_all isPlainChar (c :: t) rest hall hr
  have hdrop : (c :: t ++ rest).drop (c :: t).length = rest :=
    drop_append_len (c :: t) rest
  rw [show (c :: t) ++ rest = c :: (t ++ rest) from rfl] at htw hdrop ⊢
  conv_lhs => unfold ypValue
  simp only [hc1, hc3, hc6, if_false, htw, hdrop]
  simp [hc1, hc3, hc6, htw, hdrop]

/-- Parsing a plain key. -/
theorem parseYKey_plain (tok rest : List Char)
    (hne : tok ≠ []) (hall : tok.all isPlainChar = true)
    (hr : headNotSat isPlainChar rest) :
    parseYKey (tok ++ rest) = some (String.mk tok, rest) := by
  obtain ⟨c, t, rfl⟩ : ∃ c t, tok = c :: t := by
    cases tok with
    | nil => exact absurd rfl hne
    | cons c t => exact ⟨c, t, rfl⟩
  have hc : isPlainChar c = true := by
    simp only [List.all_cons, Bool.and_eq_true] at hall
    exact hall.1
  obtain ⟨_, _, _, _, _, hc6, _, _, _⟩ := plain_facts c hc
  have htw : (c :: t ++ rest).takeWhile isPlainChar = c :: t :=
    takeWhile_append_all isPlainChar (c :: t) rest hall hr
  have hdrop : (c :: t ++ rest).drop (c :: t).length = rest :=
    drop_append_len (c :: t) rest
  rw [show (c :: t) ++ rest = c :: (t ++ rest) from rfl] at htw hdrop ⊢
  conv_lhs => unfold parseYKey
  simp only [hc6, if_false, htw, hdrop]
  simp [hc6, htw, hdrop]

/-- Parsing a quoted key. -/
theorem parseYKey_quoted (s : String) (rest : List Char) (hq : quoteFree rest) :
    parseYKey (sqWrap s.toList ++ rest) = some (s, rest) := by
  unfold sqWrap
  rw [show ('\'' :: (sqEscape s.toList ++ ['\''])) ++ rest =
    '\'' :: (sqEscape s.toList ++ '\'' :: rest) from by simp]
  conv_lhs => unfold parseYKey
  simp only []
  rw [if_pos trivial, parseSQ_round s.toList [] rest hq]
  simp

/-- Parsing a single-quoted scalar value. -/
theorem ypValue_quoted (f : Nat) (s : String) (rest : List Char)
    (hq : quoteFree rest) :
    ypValue (f + 1) (sqWrap s.toList ++ rest) = some (.str s, rest) := by
  unfold sqWrap
  rw [show ('\'' :: (sqEscape s.toList ++ ['\''])) ++ rest =
    '\'' :: (sqEscape s.toList ++ '\'' :: rest) from by simp]
  conv_lhs => unfold ypValue
  simp only []
  rw [if_neg (by decide), if_neg (by decide), if_pos trivial,
    parseSQ_round s.toList [] rest hq]
  simp

/-- Parsing back a dumped string scalar. -/
theorem ypValue_str (f : Nat) (s : String) (rest : List Char)
    (hgr : goodRest rest) :
    ypValue (f + 1) (yamlDumpV (.str s) ++ rest) = some (.str s, rest) := by
  rw [show yamlDumpV (.str s) = yamlStrTok s from rfl]
  unfold yamlStrTok
  by_cases hg : (plainOk s.toList && resolvesToSelf s.toList) = true
  · rw [if_pos hg]
    simp only [Bool.and_eq_true] at hg
    have hp := hg.1
    unfold plainOk at hp
    simp only [Bool.and_eq_true, Bool.not_eq_true'] at hp
    have hne : s.toList ≠ [] := by
      intro h
      rw [h] at hp
      simp at hp
    rw [ypValue_plainTok f s.toList rest hne hp.2 (goodRest_plain hgr)]
    rw [resolvesToSelf_eq s.toList hg.2]
    rfl
  · rw [if_neg hg]
    exact ypValue_quoted f s rest (goodRest_quote hgr)

/-- Parsing back a dumped mapping key. -/
theorem parseYKey_tok (k : String) (r : List Char)
    (hr : headNotSat isPlainChar r) (hq : quoteFree r) :
    parseYKey (yamlKeyTok k ++ r) = some (k, r) := by
  unfold yamlKeyTok
  by_cases hp : plainOk k.toList = true
  · rw [if_pos hp]
    unfold plainOk at hp
    simp only [Bool.and_eq_true, Bool.not_eq_true'] at hp
    have hne : k.toList ≠ [] := by
      intro h
      rw [h] at hp
      simp at hp
    rw [parseYKey_plain k.toList r hne hp.2 hr]
    rfl
  · rw [if_neg hp]
    exact parseYKey_quoted k r hq

/-- A dumped value is never empty. -/
theorem yamlDumpV_len (v : YValue) : 1 ≤ (yamlDumpV v).length := by
  obtain ⟨c, t, hct, _⟩ := yamlDumpV_shape v
  rw [hct]
  simp

/-- A dumped key token is never empty. -/
theorem yamlKeyTok_len (k : String) : 1 ≤ (yamlKeyTok k).length := by
  obtain ⟨c, t, hct, _⟩ := yamlKeyTok_shape k
  rw [hct]
  simp

/-- The flow parser inverts the flow printer on well-formed values,
elementwise lists and entry lists, given enough fuel. -/
theorem ypRound : ∀ fuel : Nat,
    (∀ v rest, wfV v = true → goodRest rest → (yamlDumpV v).length ≤ fuel →
      ypValue fuel (yamlDumpV v ++ rest) = some (v, rest)) ∧
    (∀ v vs rest, wfL (v :: vs) = true → goodRest rest →
      (yamlDumpElems (v :: vs)).length + 1 ≤ fuel →
      ypElems fuel (yamlDumpElems (v :: vs) ++ ']' :: rest) = some (v :: vs, rest)) ∧
    (∀ kv kvs rest, wfP (kv :: kvs) = true → goodRest rest →
      (yamlDumpPairs (kv :: kvs)).length + 1 ≤ fuel →
      ypPairs fuel (yamlDumpPairs (kv :: kvs) ++ '\x7d' :: rest) =
        some (kv :: kvs, rest)) := by
  intro fuel
  induction fuel with
  | zero =>
    refine ⟨?_, ?_, ?_⟩
    · intro v rest _ _ hlen
      have := yamlDumpV_len v
      omega
    · intro v vs rest _ _ hlen
      omega
    · intro kv kvs rest _ _ hlen
      omega
  | succ f ih =>
    obtain ⟨ihV, ihE, ihP⟩ := ih
    refine ⟨?_, ?_, ?_⟩
    · intro v rest hwf hgr hlen
      cases v with
      | null =>
        rw [show yamlDumpV YValue.null = ['n', 'u', 'l', 'l'] from rfl,
          ypValue_plainTok f ['n', 'u', 'l', 'l'] rest (by decide) (by decide)
            (goodRest_plain hgr),
          show resolveScalar ['n', 'u', 'l', 'l'] = YValue.null from by decide]
      | bool b =>
        cases b
        · rw [show yamlDumpV (YValue.bool false) = ['f', 'a', 'l', 's', 'e'] from rfl,
            ypValue_plainTok f ['f', 'a', 'l', 's', 'e'] rest (by decide) (by decide)
              (goodRest_plain hgr),
            show resolveScalar ['f', 'a', 'l', 's', 'e'] = YValue.bool false from by decide]
        · rw [show yamlDumpV (YValue.bool true) = ['t', 'r', 'u', 'e'] from rfl,
            ypValue_plainTok f ['t', 'r', 'u', 'e'] rest (by decide) (by decide)
              (goodRest_plain hgr),
            show resolveScalar ['t', 'r', 'u', 'e'] = YValue.bool true from by decide]
      | num n =>
        obtain ⟨hall, c, t, hct, _⟩ := intRepr_props n
        have hne : intRepr n ≠ [] := by
          rw [hct]
          simp
        rw [show yamlDumpV (YValue.num n) = intRepr n from rfl,
          ypValue_plainTok f (intRepr n) rest hne hall (goodRest_plain hgr),
          resolveScalar_intRepr n]
      | str s => exact ypValue_str f s rest hgr
      | date s => simp [wfV] at hwf
      | arr vs =>
        cases vs with
        | nil =>
          rw [show yamlDumpV (YValue.arr []) ++ rest = '[' :: ']' :: rest from rfl]
          conv_lhs => unfold ypValue
          simp
        | cons v vs =>
          obtain ⟨c, t, hct, hc⟩ := yamlDumpElems_shape v vs
          have hwf' : wfL (v :: vs) = true := by simpa [wfV] using hwf
          have hlen' : (yamlDumpElems (v :: vs)).length + 1 ≤ f := by
            rw [show yamlDumpV (YValue.arr (v :: vs)) =
              '[' :: (yamlDumpElems (v :: vs) ++ [']']) from rfl] at hlen
            simp at hlen
            omega
          have h2 : ypElems f (yamlDumpElems (v :: vs) ++ ']' :: rest) =
              some (v :: vs, rest) := ihE v vs rest hwf' hgr hlen'
          have hback : c :: (t ++ ']' :: rest) =
              yamlDumpElems (v :: vs) ++ ']' :: rest := by
            rw [hct]
            rfl
          rw [show yamlDumpV (YValue.arr (v :: vs)) ++ rest =
            '[' :: (yamlDumpElems (v :: vs) ++ ']' :: rest) from by
              rw [show yamlDumpV (YValue.arr (v :: vs)) =
                '[' :: (yamlDumpElems (v :: vs) ++ [']']) from rfl]
              simp]
          conv_lhs => unfold ypValue
          simp only []
          rw [if_pos trivial, hct,
            show (c :: t) ++ ']' :: rest = c :: (t ++ ']' :: rest) from rfl]
          simp only []
          rw [if_neg hc, hback, h2]
      | obj kvs =>
        cases kvs with
        | nil =>
          rw [show yamlDumpV (YValue.obj []) ++ rest = '\x7b' :: '\x7d' :: rest from rfl]
          conv_lhs => unfold ypValue
          simp
        | cons kv kvs =>
          obtain ⟨c, t, hct, hc⟩ := yamlDumpPairs_shape kv kvs
          have hwf' : wfP (kv :: kvs) = true := by simpa [wfV] using hwf
          have hlen' : (yamlDumpPairs (kv :: kvs)).length + 1 ≤ f := by
            rw [show yamlDumpV (YValue.obj (kv :: kvs)) =
              '\x7b' :: (yamlDumpPairs (kv :: kvs) ++ ['\x7d']) from rfl] at hlen
            simp at hlen
            omega
          have h2 : ypPairs f (yamlDumpPairs (kv :: kvs) ++ '\x7d' :: rest) =
              some (kv :: kvs, rest) := ihP kv kvs rest hwf' hgr hlen'
          have hback : c :: (t ++ '\x7d' :: rest) =
              yamlDumpPairs (kv :: kvs) ++ '\x7d' :: rest := by
            rw [hct]
            rfl
          rw [show yamlDumpV (YValue.obj (kv :: kvs)) ++ rest =
            '\x7b' :: (yamlDumpPairs (kv :: kvs) ++ '\x7d' :: rest) from by
              rw [show yamlDumpV (YValue.obj (kv :: kvs)) =
                '\x7b' :: (yamlDumpPairs (kv :: kvs) ++ ['\x7d']) from rfl]
              simp]
          conv_lhs => unfold ypValue
          simp only []
          rw [if_neg (by decide), if_pos trivial, hct,
            show (c :: t) ++ '\x7d' :: rest = c :: (t ++ '\x7d' :: rest) from rfl]
          simp only []
          rw [if_neg hc, hback, h2]
    · intro v vs rest hwf hgr hlen
      simp only [wfL, Bool.and_eq_true] at hwf
      cases vs with
      | nil =>
        rw [show yamlDumpElems [v] = yamlDumpV v from rfl] at hlen ⊢
        have h1 : ypValue f (yamlDumpV v ++ ']' :: rest) = some (v, ']' :: rest) :=
          ihV v (']' :: rest) hwf.1 (by simp [goodRest]) (by omega)
        conv_lhs => unfold ypElems
        rw [h1]
        simp
      | cons w ws =>
        rw [show yamlDumpElems (v :: w :: ws) =
          yamlDumpV v ++ ',' :: yamlDumpElems (w :: ws) from rfl] at hlen ⊢
        have hlv := yamlDumpV_len v
        simp only [List.length_append, List.length_cons] at hlen
        have h1 : ypValue f (yamlDumpV v ++ ',' :: (yamlDumpElems (w :: ws) ++ ']' :: rest)) =
            some (v, ',' :: (yamlDumpElems (w :: ws) ++ ']' :: rest)) :=
          ihV v _ hwf.1 (by simp [goodRest]) (by omega)
        have h2 : ypElems f (yamlDumpElems (w :: ws) ++ ']' :: rest) =
            some (w :: ws, rest) :=
          ihE w ws rest hwf.2 hgr (by omega)
        rw [show (yamlDumpV v ++ ',' :: yamlDumpElems (w :: ws)) ++ ']' :: rest =
          yamlDumpV v ++ ',' :: (yamlDumpElems (w :: ws) ++ ']' :: rest) from by simp]
        conv_lhs => unfold ypElems
        rw [h1]
        simp only []
        rw [if_pos trivial, h2]
    · intro kv kvs rest hwf hgr hlen
      obtain ⟨k, v⟩ := kv
      simp only [wfP, Bool.and_eq_true] at hwf
      have hklen := yamlKeyTok_len k
      cases kvs with
      | nil =>
        rw [show yamlDumpPairs [(k, v)] =
          yamlKeyTok k ++ ':' :: ' ' :: yamlDumpV v from rfl] at hlen ⊢
        simp only [List.length_append, List.length_cons] at hlen
        rw [show (yamlKeyTok k ++ ':' :: ' ' :: yamlDumpV v) ++ '\x7d' :: rest =
          yamlKeyTok k ++ (':' :: ' ' :: (yamlDumpV v ++ '\x7d' :: rest)) from by simp]
        have hkey : parseYKey (yamlKeyTok k ++
            (':' :: ' ' :: (yamlDumpV v ++ '\x7d' :: rest))) =
            some (k, ':' :: ' ' :: (yamlDumpV v ++ '\x7d' :: rest)) :=
          parseYKey_tok k _ (by show isPlainChar ':' = false; decide)
            (by show ':' ≠ '\''; decide)
        have h1 : ypValue f (yamlDumpV v ++ '\x7d' :: rest) = some (v, '\x7d' :: rest) :=
          ihV v _ hwf.1.2 (by simp [goodRest]) (by omega)
        conv_lhs => unfold ypPairs
        rw [hkey]
        simp only []
        rw [if_pos ⟨trivial, trivial⟩, h1]
        simp
      | cons p ps =>
        rw [show yamlDumpPairs ((k, v) :: p :: ps) =
          (yamlKeyTok k ++ ':' :: ' ' :: yamlDumpV v) ++
            ',' :: yamlDumpPairs (p :: ps) from rfl] at hlen ⊢
        simp only [List.length_append, List.length_cons] at hlen
        rw [show ((yamlKeyTok k ++ ':' :: ' ' :: yamlDumpV v) ++
            ',' :: yamlDumpPairs (p :: ps)) ++ '\x7d' :: rest =
          yamlKeyTok k ++ (':' :: ' ' :: (yamlDumpV v ++
            ',' :: (yamlDumpPairs (p :: ps) ++ '\x7d' :: rest))) from by simp]
        have hkey : parseYKey (yamlKeyTok k ++ (':' :: ' ' :: (yamlDumpV v ++
            ',' :: (yamlDumpPairs (p :: ps) ++ '\x7d' :: rest)))) =
            some (k, ':' :: ' ' :: (yamlDumpV v ++
              ',' :: (yamlDumpPairs (p :: ps) ++ '\x7d' :: rest))) :=
          parseYKey_tok k _ (by show isPlainChar ':' = false; decide)
            (by show ':' ≠ '\''; decide)
        have h1 : ypValue f (yamlDumpV v ++
            ',' :: (yamlDumpPairs (p :: ps) ++ '\x7d' :: rest)) =
            some (v, ',' :: (yamlDumpPairs (p :: ps) ++ '\x7d' :: rest)) :=
          ihV v _ hwf.1.2 (by simp [goodRest]) (by omega)
        have h2 : ypPairs f (yamlDumpPairs (p :: ps) ++ '\x7d' :: rest) =
            some (p :: ps, rest) :=
          ihP p ps rest hwf.2 hgr (by omega)
        conv_lhs => unfold ypPairs
        rw [hkey]
        simp only []
        rw [if_pos ⟨trivial, trivial⟩, h1]
        simp only []
        rw [if_pos trivial, h2]

/-- The modelled `yaml.load` inverts the modelled `yaml.dump` on
well-formed values. -/
theorem yamlLoad_yamlDump (v : YValue) (h : wfV v = true) :
    yamlLoad (yamlDump v) = some v := by
  have hv := (ypRound ((yamlDumpV v).length + 1)).1 v [] h trivial (by omega)
  rw [List.append_nil] at hv
  unfold yamlLoad yamlDump
  rw [show (String.mk (yamlDumpV v)).length = (yamlDumpV v).length from rfl,
    show (String.mk (yamlDumpV v)).toList = yamlDumpV v from rfl, hv]

/-- A printed JSON entry list always starts with a double quote. -/
theorem jsonDumpPairs_shape (kv : String × YValue) (kvs : List (String × YValue)) :
    ∃ t, jsonDumpPairs (kv :: kvs) = '"' :: t := by
  obtain ⟨k, v⟩ := kv
  cases kvs with
  | nil => exact ⟨(dqEscape k.toList ++ ['"']) ++ ':' :: jsonDumpV v, rfl⟩
  | cons p ps =>
    exact ⟨((dqEscape k.toList ++ ['"']) ++ ':' :: jsonDumpV v) ++
      ',' :: jsonDumpPairs (p :: ps), rfl⟩

/-- The head of a printed JSON value is never a closing bracket. -/
theorem jsonDumpV_shape (v : YValue) :
    ∃ c t, jsonDumpV v = c :: t ∧ c ≠ ']' := by
  cases v with
  | null => exact ⟨'n', _, rfl, by decide⟩
  | bool b =>
    cases b
    · exact ⟨'f', _, rfl, by decide⟩
    · exact ⟨'t', _, rfl, by decide⟩
  | num n =>
    obtain ⟨_, c, t, hct, hc⟩ := intRepr_props n
    refine ⟨c, t, hct, ?_⟩
    rcases hc with hc | hc
    · subst hc
      decide
    · exact (digit_facts c hc).2.2.2.1
  | str s => exact ⟨'"', dqEscape s.toList ++ ['"'], rfl, by decide⟩
  | date s => exact ⟨'"', dqEscape s.toList ++ ['"'], rfl, by decide⟩
  | arr vs =>
    cases vs with
    | nil => exact ⟨'[', [']'], rfl, by decide⟩
    | cons v vs' => exact ⟨'[', _, rfl, by decide⟩
  | obj kvs =>
    cases kvs with
    | nil => exact ⟨'\x7b', ['\x7d'], rfl, by decide⟩
    | cons kv kvs' => exact ⟨'\x7b', _, rfl, by decide⟩

/-- A printed JSON value is never empty. -/
theorem jsonDumpV_len (v : YValue) : 1 ≤ (jsonDumpV v).length := by
  obtain ⟨c, t, hct, _⟩ := jsonDumpV_shape v
  rw [hct]
  simp

/-- The head of a printed nonempty JSON element list is never a
closing bracket. -/
theorem jsonDumpElems_shape (v : YValue) (vs : List YValue) :
    ∃ c t, jsonDumpElems (v :: vs) = c :: t ∧ c ≠ ']' := by
  obtain ⟨c, t, hct, hc⟩ := jsonDumpV_shape v
  cases vs with
  | nil => exact ⟨c, t, hct, hc⟩
  | cons w ws =>
    refine ⟨c, t ++ ',' :: jsonDumpElems (w :: ws), ?_, hc⟩
    rw [show jsonDumpElems (v :: w :: ws) =
      jsonDumpV v ++ ',' :: jsonDumpElems (w :: ws) from rfl, hct]
    rfl

/-- One step of `jpValue` on a cons input, stated as a definitional
equation. -/
theorem jpValue_step (f : Nat) (c : Char) (rest : List Char) :
    jpValue (f + 1) (c :: rest) =
      (if c = '"' then
        match parseDQ [] rest with
        | some (s, rest') => some (.str s, rest')
        | none => none
      else if c = '[' then
        match rest with
        | d :: rest' =>
          if d = ']' then some (.arr [], rest')
          else
            match jpElems f rest with
            | some (vs, rest'') => some (.arr vs, rest'')
            | none => none
        | [] => none
      else if c = '\x7b' then
        match rest with
        | d :: rest' =>
          if d = '\x7d' then some (.obj [], rest')
          else
            match jpPairs f rest with
            | some (kvs, rest'') => some (.obj kvs, rest'')
            | none => none
        | [] => none
      else if c = '-' then
        if (rest.takeWhile (fun d => d.isDigit)).isEmpty then none
        else some (.num (- (digitsVal (rest.takeWhile (fun d => d.isDigit)) : Int)),
          rest.drop (rest.takeWhile (fun d => d.isDigit)).length)
      else if c.isDigit then
        if ((c :: rest).takeWhile (fun d => d.isDigit)).isEmpty then none
        else some (.num (digitsVal ((c :: rest).takeWhile (fun d => d.isDigit)) : Int),
          (c :: rest).drop ((c :: rest).takeWhile (fun d => d.isDigit)).length)
      else
        if (c :: rest).takeWhile (fun d => d.isAlpha) = ['n', 'u', 'l', 'l'] then
          some (.null, (c :: rest).drop 4)
        else if (c :: rest).takeWhile (fun d => d.isAlpha) = ['t', 'r', 'u', 'e'] then
          some (.bool true, (c :: rest).drop 4)
        else if (c :: rest).takeWhile (fun d => d.isAlpha) = ['f', 'a', 'l', 's', 'e'] then
          some (.bool false, (c :: rest).drop 5)
        else none) := rfl

/-- The JSON parser reads back the `null` literal. -/
theorem jpValue_null (f : Nat) (rest : List Char)
    (hr : headNotSat (fun c => c.isAlpha) rest) :
    jpValue (f + 1) (['n', 'u', 'l', 'l'] ++ rest) = some (.null, rest) := by
  have htw : ('n' :: 'u' :: 'l' :: 'l' :: rest).takeWhile (fun d => d.isAlpha) =
      ['n', 'u', 'l', 'l'] :=
    takeWhile_append_all _ ['n', 'u', 'l', 'l'] rest (by decide) hr
  have hdrop : ('n' :: 'u' :: 'l' :: 'l' :: rest).drop 4 = rest :=
    drop_append_len ['n', 'u', 'l', 'l'] rest
  rw [show ['n', 'u', 'l', 'l'] ++ rest = 'n' :: 'u' :: 'l' :: 'l' :: rest from rfl,
    jpValue_step]
  simp [htw, hdrop]

/-- The JSON parser reads back the `true` literal. -/
theorem jpValue_true (f : Nat) (rest : List Char)
    (hr : headNotSat (fun c => c.isAlpha) rest) :
    jpValue (f + 1) (['t', 'r', 'u', 'e'] ++ rest) = some (.bool true, rest) := by
  have htw : ('t' :: 'r' :: 'u' :: 'e' :: rest).takeWhile (fun d => d.isAlpha) =
      ['t', 'r', 'u', 'e'] :=
    takeWhile_append_all _ ['t', 'r', 'u', 'e'] rest (by decide) hr
  have hdrop : ('t' :: 'r' :: 'u' :: 'e' :: rest).drop 4 = rest :=
    drop_append_len ['t', 'r', 'u', 'e'] rest
  rw [show ['t', 'r', 'u', 'e'] ++ rest = 't' :: 'r' :: 'u' :: 'e' :: rest from rfl,
    jpValue_step]
  simp [htw, hdrop]

/-- The JSON parser reads back the `false` literal. -/
theorem jpValue_false (f : Nat) (rest : List Char)
    (hr : headNotSat (fun c => c.isAlpha) rest) :
    jpValue (f + 1) (['f', 'a', 'l', 's', 'e'] ++ rest) = some (.bool false, rest) := by
  have htw : ('f' :: 'a' :: 'l' :: 's' :: 'e' :: rest).takeWhile (fun d => d.isAlpha) =
      ['f', 'a', 'l', 's', 'e'] :=
    takeWhile_append_all _ ['f', 'a', 'l', 's', 'e'] rest (by decide) hr
  have hdrop : ('f' :: 'a' :: 'l' :: 's' :: 'e' :: rest).drop 5 = rest :=
    drop_append_len ['f', 'a', 'l', 's', 'e'] rest
  rw [show ['f', 'a', 'l', 's', 'e'] ++ rest =
    'f' :: 'a' :: 'l' :: 's' :: 'e' :: rest from rfl,
    jpValue_step]
  simp [htw, hdrop]

/-- The JSON parser reads back a printed string literal. -/
theorem jpValue_str (f : Nat) (s : String) (rest : List Char) :
    jpValue (f + 1) (dqWrap s.toList ++ rest) = some (.str s, rest) := by
  unfold dqWrap
  rw [show ('"' :: (dqEscape s.toList ++ ['"'])) ++ rest =
    '"' :: (dqEscape s.toList ++ '"' :: rest) from by simp]
  rw [jpValue_step, if_pos rfl, parseDQ_round s.toList [] rest]
  simp

/-- The JSON parser reads back a printed integer. -/
theorem jpValue_num (f : Nat) (n : Int) (rest : List Char)
    (hr : headNotSat (fun d => d.isDigit) rest) :
    jpValue (f + 1) (intRepr n ++ rest) = some (.num n, rest) := by
  unfold intRepr
  by_cases hn : n < 0
  · rw [if_pos hn]
    obtain ⟨ha, hne, hv⟩ := natDigits_spec (- n).toNat
    have htw : (natDigits (- n).toNat ++ rest).takeWhile (fun d => d.isDigit) =
        natDigits (- n).toNat :=
      takeWhile_append_all _ (natDigits (- n).toNat) rest ha hr
    have hdrop : (natDigits (- n).toNat ++ rest).drop (natDigits (- n).toNat).length =
        rest := drop_append_len (natDigits (- n).toNat) rest
    have hDne : (natDigits (- n).toNat).isEmpty = false := by
      cases hD : natDigits (- n).toNat with
      | nil => exact absurd hD hne
      | cons a l => rfl
    rw [show ('-' :: natDigits (- n).toNat) ++ rest =
      '-' :: (natDigits (- n).toNat ++ rest) from rfl, jpValue_step]
    simp [htw, hdrop, hDne, hv]
    omega
  · rw [if_neg hn]
    obtain ⟨ha, hne, hv⟩ := natDigits_spec n.toNat
    obtain ⟨c, t, hct, hcd⟩ := natDigits_shape n.toNat
    obtain ⟨_, hcm, hc3, _, hc5, _, _, _, hc9, _, _⟩ := digit_facts c hcd
    rw [hct] at ha hv ⊢
    have htw : (c :: (t ++ rest)).takeWhile (fun d => d.isDigit) = c :: t :=
      takeWhile_append_all _ (c :: t) rest ha hr
    have hdrop : (c :: (t ++ rest)).drop (c :: t).length = rest :=
      drop_append_len (c :: t) rest
    rw [show (c :: t) ++ rest = c :: (t ++ rest) from rfl, jpValue_step]
    simp [htw, hdrop, hcd, hcm, hc3, hc5, hc9, hv,
      Int.toNat_of_nonneg (show (0 : Int) ≤ n by omega)]

/-- The JSON parser inverts the JSON printer on well-formed values,
elementwise lists and entry lists, given enough fuel. -/
theorem jpRound : ∀ fuel : Nat,
    (∀ v rest, wfV v = true → goodRest rest → (jsonDumpV v).length ≤ fuel →
      jpValue fuel (jsonDumpV v ++ rest) = some (v, rest)) ∧
    (∀ v vs rest, wfL (v :: vs) = true → goodRest rest →
      (jsonDumpElems (v :: vs)).length + 1 ≤ fuel →
      jpElems fuel (jsonDumpElems (v :: vs) ++ ']' :: rest) = some (v :: vs, rest)) ∧
    (∀ kv kvs rest, wfP (kv :: kvs) = true → goodRest rest →
      (jsonDumpPairs (kv :: kvs)).length + 1 ≤ fuel →
      jpPairs fuel (jsonDumpPairs (kv :: kvs) ++ '\x7d' :: rest) =
        some (kv :: kvs, rest)) := by
  intro fuel
  induction fuel with
  | zero =>
    refine ⟨?_, ?_, ?_⟩
    · intro v rest _ _ hlen
      have := jsonDumpV_len v
      omega
    · intro v vs rest _ _ hlen
      omega
    · intro kv kvs rest _ _ hlen
      omega
  | succ f ih =>
    obtain ⟨ihV, ihE, ihP⟩ := ih
    refine ⟨?_, ?_, ?_⟩
    · intro v rest hwf hgr hlen
      cases v with
      | null =>
        rw [show jsonDumpV YValue.null = ['n', 'u', 'l', 'l'] from rfl]
        exact jpValue_null f rest (goodRest_alpha hgr)
      | bool b =>
        cases b
        · rw [show jsonDumpV (YValue.bool false) = ['f', 'a', 'l', 's', 'e'] from rfl]
          exact jpValue_false f rest (goodRest_alpha hgr)
        · rw [show jsonDumpV (YValue.bool true) = ['t', 'r', 'u', 'e'] from rfl]
          exact jpValue_true f rest (goodRest_alpha hgr)
      | num n =>
        rw [show jsonDumpV (YValue.num n) = intRepr n from rfl]
        exact jpValue_num f n rest (goodRest_digit hgr)
      | str s =>
        rw [show jsonDumpV (YValue.str s) = dqWrap s.toList from rfl]
        exact jpValue_str f s rest
      | date s => simp [wfV] at hwf
      | arr vs =>
        cases vs with
        | nil =>
          rw [show jsonDumpV (YValue.arr []) ++ rest = '[' :: ']' :: rest from rfl,
            jpValue_step]
          simp
        | cons v vs =>
          obtain ⟨c, t, hct, hc⟩ := jsonDumpElems_shape v vs
          have hwf' : wfL (v :: vs) = true := by simpa [wfV] using hwf
          have hlen' : (jsonDumpElems (v :: vs)).length + 1 ≤ f := by
            rw [show jsonDumpV (YValue.arr (v :: vs)) =
              '[' :: (jsonDumpElems (v :: vs) ++ [']']) from rfl] at hlen
            simp at hlen
            omega
          have h2 : jpElems f (jsonDumpElems (v :: vs) ++ ']' :: rest) =
              some (v :: vs, rest) := ihE v vs rest hwf' hgr hlen'
          have hback : c :: (t ++ ']' :: rest) =
              jsonDumpElems (v :: vs) ++ ']' :: rest := by
            rw [hct]
            rfl
          rw [show jsonDumpV (YValue.arr (v :: vs)) ++ rest =
            '[' :: (jsonDumpElems (v :: vs) ++ ']' :: rest) from by
              rw [show jsonDumpV (YValue.arr (v :: vs)) =
                '[' :: (jsonDumpElems (v :: vs) ++ [']']) from rfl]
              simp]
          rw [jpValue_step, if_neg (by decide), if_pos rfl, hct,
            show (c :: t) ++ ']' :: rest = c :: (t ++ ']' :: rest) from rfl]
          simp only []
          rw [if_neg hc, hback, h2]
      | obj kvs =>
        cases kvs with
        | nil =>
          rw [show jsonDumpV (YValue.obj []) ++ rest = '\x7b' :: '\x7d' :: rest from rfl,
            jpValue_step]
          simp
        | cons kv kvs =>
          obtain ⟨t, hct⟩ := jsonDumpPairs_shape kv kvs
          have hwf' : wfP (kv :: kvs) = true := by simpa [wfV] using hwf
          have hlen' : (jsonDumpPairs (kv :: kvs)).length + 1 ≤ f := by
            rw [show jsonDumpV (YValue.obj (kv :: kvs)) =
              '\x7b' :: (jsonDumpPairs (kv :: kvs) ++ ['\x7d']) from rfl] at hlen
            simp at hlen
            omega
          have h2 : jpPairs f (jsonDumpPairs (kv :: kvs) ++ '\x7d' :: rest) =
              some (kv :: kvs, rest) := ihP kv kvs rest hwf' hgr hlen'
          have hback : '"' :: (t ++ '\x7d' :: rest) =
              jsonDumpPairs (kv :: kvs) ++ '\x7d' :: rest := by
            rw [hct]
            rfl
          rw [show jsonDumpV (YValue.obj (kv :: kvs)) ++ rest =
            '\x7b' :: (jsonDumpPairs (kv :: kvs) ++ '\x7d' :: rest) from by
              rw [show jsonDumpV (YValue.obj (kv :: kvs)) =
                '\x7b' :: (jsonDumpPairs (kv :: kvs) ++ ['\x7d']) from rfl]
              simp]
          rw [jpValue_step, if_neg (by decide), if_neg (by decide), if_pos rfl, hct,
            show ('"' :: t) ++ '\x7d' :: rest = '"' :: (t ++ '\x7d' :: rest) from rfl]
          simp only []
          rw [if_neg (by decide), hback, h2]
    · intro v vs rest hwf hgr hlen
      simp only [wfL, Bool.and_eq_true] at hwf
      cases vs with
      | nil =>
        rw [show jsonDumpElems [v] = jsonDumpV v from rfl] at hlen ⊢
        have h1 : jpValue f (jsonDumpV v ++ ']' :: rest) = some (v, ']' :: rest) :=
          ihV v (']' :: rest) hwf.1 (by simp [goodRest]) (by omega)
        conv_lhs => unfold jpElems
        rw [h1]
        simp
      | cons w ws =>
        rw [show jsonDumpElems (v :: w :: ws) =
          jsonDumpV v ++ ',' :: jsonDumpElems (w :: ws) from rfl] at hlen ⊢
        have hlv := jsonDumpV_len v
        simp only [List.length_append, List.length_cons] at hlen
        have h1 : jpValue f (jsonDumpV v ++
            ',' :: (jsonDumpElems (w :: ws) ++ ']' :: rest)) =
            some (v, ',' :: (jsonDumpElems (w :: ws) ++ ']' :: rest)) :=
          ihV v _ hwf.1 (by simp [goodRest]) (by omega)
        have h2 : jpElems f (jsonDumpElems (w :: ws) ++ ']' :: rest) =
            some (w :: ws, rest) :=
          ihE w ws rest hwf.2 hgr (by omega)
        rw [show (jsonDumpV v ++ ',' :: jsonDumpElems (w :: ws)) ++ ']' :: rest =
          jsonDumpV v ++ ',' :: (jsonDumpElems (w :: ws) ++ ']' :: rest) from by simp]
        conv_lhs => unfold jpElems
        rw [h1]
        simp only []
        rw [if_pos trivial, h2]
    · intro kv kvs rest hwf hgr hlen
      obtain ⟨k, v⟩ := kv
      simp only [wfP, Bool.and_eq_true] at hwf
      cases kvs with
      | nil =>
        rw [show jsonDumpPairs [(k, v)] =
          dqWrap k.toList ++ ':' :: jsonDumpV v from rfl] at hlen ⊢
        rw [show dqWrap k.toList = '"' :: (dqEscape k.toList ++ ['"']) from rfl] at hlen ⊢
        simp only [List.length_append, List.length_cons] at hlen
        rw [show (('"' :: (dqEscape k.toList ++ ['"'])) ++ ':' :: jsonDumpV v) ++
            '\x7d' :: rest =
          '"' :: (dqEscape k.toList ++ '"' ::
            (':' :: (jsonDumpV v ++ '\x7d' :: rest))) from by simp]
        have hkey : parseDQ [] (dqEscape k.toList ++ '"' ::
            (':' :: (jsonDumpV v ++ '\x7d' :: rest))) =
            some (k, ':' :: (jsonDumpV v ++ '\x7d' :: rest)) := by
          rw [parseDQ_round k.toList [] (':' :: (jsonDumpV v ++ '\x7d' :: rest))]
          simp
        have h1 : jpValue f (jsonDumpV v ++ '\x7d' :: rest) = some (v, '\x7d' :: rest) :=
          ihV v _ hwf.1.2 (by simp [goodRest]) (by omega)
        conv_lhs => unfold jpPairs
        simp only []
        rw [if_pos trivial, hkey]
        simp only []
        rw [if_pos trivial, h1]
        simp
      | cons p ps =>
        rw [show jsonDumpPairs ((k, v) :: p :: ps) =
          (dqWrap k.toList ++ ':' :: jsonDumpV v) ++
            ',' :: jsonDumpPairs (p :: ps) from rfl] at hlen ⊢
        rw [show dqWrap k.toList = '"' :: (dqEscape k.toList ++ ['"']) from rfl] at hlen ⊢
        simp only [List.length_append, List.length_cons] at hlen
        rw [show ((('"' :: (dqEscape k.toList ++ ['"'])) ++ ':' :: jsonDumpV v) ++
            ',' :: jsonDumpPairs (p :: ps)) ++ '\x7d' :: rest =
          '"' :: (dqEscape k.toList ++ '"' :: (':' :: (jsonDumpV v ++
            ',' :: (jsonDumpPairs (p :: ps) ++ '\x7d' :: rest)))) from by simp]
        have hkey : parseDQ [] (dqEscape k.toList ++ '"' :: (':' :: (jsonDumpV v ++
            ',' :: (jsonDumpPairs (p :: ps) ++ '\x7d' :: rest)))) =
            some (k, ':' :: (jsonDumpV v ++
              ',' :: (jsonDumpPairs (p :: ps) ++ '\x7d' :: rest))) := by
          rw [parseDQ_round k.toList []
            (':' :: (jsonDumpV v ++ ',' :: (jsonDumpPairs (p :: ps) ++ '\x7d' :: rest)))]
          simp
        have h1 : jpValue f (jsonDumpV v ++
            ',' :: (jsonDumpPairs (p :: ps) ++ '\x7d' :: rest)) =
            some (v, ',' :: (jsonDumpPairs (p :: ps) ++ '\x7d' :: rest)) :=
          ihV v _ hwf.1.2 (by simp [goodRest]) (by omega)
        have h2 : jpPairs f (jsonDumpPairs (p :: ps) ++ '\x7d' :: rest) =
            some (p :: ps, rest) :=
          ihP p ps rest hwf.2 hgr (by omega)
        conv_lhs => unfold jpPairs
        simp only []
        rw [if_pos trivial, hkey]
        simp only []
        rw [if_pos trivial, h1]
        simp only []
        rw [if_pos trivial, h2]

/-- The modelled `JSON.parse` inverts the modelled `JSON.stringify` on
well-formed values. -/
theorem jsonParse_jsonStringify (v : YValue) (h : wfV v = true) :
    jsonParse (jsonStringify v) = some v := by
  have hv := (jpRound ((jsonDumpV v).length + 1)).1 v [] h trivial (by omega)
  rw [List.append_nil] at hv
  unfold jsonParse jsonStringify
  rw [show (String.mk (jsonDumpV v)).length = (jsonDumpV v).length from rfl,
    show (String.mk (jsonDumpV v)).toList = jsonDumpV v from rfl, hv]

/-- C7: for every JSON text that parses to well-formed manifest data
(no native dates, no control characters in strings or keys),
`convertJsonToYaml` succeeds, `convertYamlToJson` of its output
succeeds, and the resulting JSON text parses back to a structurally
equal value; moreover the modelled `yaml.load` inverts the modelled
`yaml.dump` on every such value, and a date-like string value
round-trips as a string — the dumper quotes it — even though the
default schema resolves the same text, unquoted, to a native date. -/
theorem convert_roundtrip_spec :
    (∀ s v, jsonParse s = some v → wfV v = true →
      ∃ y j, convertJsonToYaml s = Except.ok y ∧
        convertYamlToJson y = Except.ok j ∧ jsonParse j = some v) ∧
    (∀ v, wfV v = true → yamlLoad (yamlDump v) = some v) ∧
    yamlLoad (yamlDump (.str "2024-01-15")) = some (.str "2024-01-15") ∧
    yamlLoad "2024-01-15" = some (.date "2024-01-15") := by
  refine ⟨?_, yamlLoad_yamlDump, by decide, by decide⟩
  intro s v hp hwf
  refine ⟨yamlDump v, jsonStringify v, ?_, ?_, jsonParse_jsonStringify v hwf⟩
  · unfold convertJsonToYaml
    rw [hp]
  · unfold convertYamlToJson
    rw [yamlLoad_yamlDump v hwf]

/-- Witness: the concrete JSON object text round-trips through the two
converters back to the same value. -/
theorem convert_roundtrip_spec_witness :
    ∃ y j, convertJsonToYaml "\x7b\"a\":1\x7d" = Except.ok y ∧
      convertYamlToJson y = Except.ok j ∧
      jsonParse j = some (YValue.obj [("a", YValue.num 1)]) :=
  convert_roundtrip_spec.1 "\x7b\"a\":1\x7d" (YValue.obj [("a", YValue.num 1)])
    (by decide) (by decide)

end YamlLemmas

end Claims

end FBTM
